import Mathlib

/-!
Verification of the quaere resource-cache core against its specification.

The TypeScript sources are shallowly embedded: each Lean definition below is a
direct translation of the correspondingly named function of the repository
(`src/vanilla/queryInfo.ts`, `retryer.ts`, `query.ts` (hydration),
`observableQuery.ts`, `mutationInfo.ts`, `infiniteQueryBehavior.ts`,
`utils.ts`).  JavaScript `undefined`/`null` become `Option`, reference
identity of opaque values becomes equality of identifiers (`Nat`), timestamps
(`Date.now()`) become an explicit `now : Nat` parameter, and promise identity
becomes a `Nat` tag.
-/

namespace Quaere

/-! ## Retryer (retryer.ts)

`retry?: RetryValue<TError>` is `boolean | number | ((failureCount, error) => boolean)`,
`retryDelay?: RetryDelayValue<TError>` is `number | ((failureCount, error) => number)`. -/

inductive RetryValue (E : Type) where
  | bool (b : Bool)
  | num (n : Nat)
  | fn (f : Nat → E → Bool)

inductive RetryDelayValue (E : Type) where
  | num (n : Nat)
  | fn (f : Nat → E → Nat)

/-- `const defaultRetryDelay = failureCount => Math.min(1000 * 2 ** failureCount, 30000)` -/
def defaultRetryDelay (failureCount : Nat) : Nat :=
  min (1000 * 2 ^ failureCount) 30000

/-- The part of a retryer's configuration consulted on a failed attempt.
`isServer` feeds the environment-dependent default retry count
(`config.retry ?? (isServer ? 0 : 3)`). -/
structure RetryerConfig (E : Type) where
  retry : Option (RetryValue E)
  retryDelay : Option (RetryDelayValue E)
  isServer : Bool

/-- Mutable locals of `createRetryer` that the failure path reads. -/
structure RetryerState where
  failureCount : Nat
  isRetryCancelled : Bool
  isResolved : Bool
deriving DecidableEq, Repr

/-- Result of the `.catch` handler of one attempt inside `run()`:
either the attempt is silently dropped (`isResolved` already set), the
original error is rejected, or a retry is scheduled after `delay` ms. -/
inductive FailureOutcome (E : Type) where
  | ignore
  | reject (e : E)
  | retryAfter (delay : Nat) (next : RetryerState)

/-- The effective retry option: `config.retry ?? (isServer ? 0 : 3)`. -/
def effectiveRetry {E : Type} (cfg : RetryerConfig E) : RetryValue E :=
  cfg.retry.getD (if cfg.isServer then .num 0 else .num 3)

/-- The delay computed in `run()`'s catch handler:
`retryDelay ?? defaultRetryDelay`, applied to `(failureCount, error)` when it
is a function and used as-is when it is a number. -/
def effectiveDelay {E : Type} (cfg : RetryerConfig E) (failureCount : Nat) (e : E) : Nat :=
  match cfg.retryDelay.getD (.fn fun n _ => defaultRetryDelay n) with
  | .num d => d
  | .fn f => f failureCount e

/-- `shouldRetry = retry === true || (isNumber(retry) && failureCount < retry)
|| (isFunction(retry) && retry(failureCount, error))`. -/
def shouldRetryB {E : Type} (retry : RetryValue E) (failureCount : Nat) (e : E) : Bool :=
  match retry with
  | .bool b => b
  | .num n => decide (failureCount < n)
  | .fn f => f failureCount e

/-- The `.catch` handler of `run()` in `createRetryer` (retryer.ts):
bail out when already resolved; otherwise compute `shouldRetry` and the
delay; reject with the original error when cancelled or not retrying, else
increment the failure count and schedule the next attempt after `delay`. -/
def runOnFailure {E : Type} (cfg : RetryerConfig E) (st : RetryerState) (e : E) :
    FailureOutcome E :=
  if st.isResolved then .ignore
  else
    let delay := effectiveDelay cfg st.failureCount e
    let shouldRetry := shouldRetryB (effectiveRetry cfg) st.failureCount e
    if st.isRetryCancelled || !shouldRetry then .reject e
    else .retryAfter delay { st with failureCount := st.failureCount + 1 }

/-- The claim's retry condition, written as it is stated: the retry option is
`true`, or a number greater than the failure count, or a function returning
`true` on `(failureCount, error)`. -/
def specShouldRetry {E : Type} (retry : RetryValue E) (failureCount : Nat) (e : E) : Prop :=
  retry = .bool true ∨
  (∃ m, retry = .num m ∧ failureCount < m) ∨
  (∃ f, retry = .fn f ∧ f failureCount e = true)

/-! ## QueryInfo state machine (queryInfo.ts) -/

inductive QueryStatus where
  | pending
  | error
  | success
deriving DecidableEq, Repr

inductive FetchStatus where
  | fetching
  | paused
  | idle
deriving DecidableEq, Repr

/-- Errors flowing through `dispatch({type:'error'})`: either a
`CancelledError {revert, silent}` or an ordinary error value. -/
inductive QErr (E : Type) where
  | cancelled (revert : Bool) (silent : Bool)
  | err (e : E)
deriving DecidableEq, Repr

/-- `isCancelledError` (retryer.ts). -/
def isCancelledError {E : Type} : QErr E → Bool
  | .cancelled _ _ => true
  | .err _ => false

/-- `interface QueryInfoState` (queryInfo.ts).  `fetchMeta` is opaque, kept as
an identifier. -/
structure QueryInfoState (D E : Type) where
  data : Option D
  dataUpdatedAt : Nat
  error : Option (QErr E)
  errorUpdatedAt : Nat
  fetchMeta : Option Nat
  isInvalidated : Bool
  status : QueryStatus
  fetchStatus : FetchStatus
deriving DecidableEq, Repr

/-- A `Partial<QueryInfoState>` as passed to the `setState` action. -/
structure StatePatch (D E : Type) where
  data : Option (Option D) := none
  dataUpdatedAt : Option Nat := none
  error : Option (Option (QErr E)) := none
  errorUpdatedAt : Option Nat := none
  fetchMeta : Option (Option Nat) := none
  isInvalidated : Option Bool := none
  status : Option QueryStatus := none
  fetchStatus : Option FetchStatus := none
deriving DecidableEq, Repr

/-- `{ ...state, ...action.state }` for a partial state. -/
def applyPatch {D E : Type} (state : QueryInfoState D E) (p : StatePatch D E) :
    QueryInfoState D E where
  data := p.data.getD state.data
  dataUpdatedAt := p.dataUpdatedAt.getD state.dataUpdatedAt
  error := p.error.getD state.error
  errorUpdatedAt := p.errorUpdatedAt.getD state.errorUpdatedAt
  fetchMeta := p.fetchMeta.getD state.fetchMeta
  isInvalidated := p.isInvalidated.getD state.isInvalidated
  status := p.status.getD state.status
  fetchStatus := p.fetchStatus.getD state.fetchStatus

/-- `type Action` (queryInfo.ts).  `success` carries the optional explicit
`dataUpdatedAt` and the `manual` flag exactly as the source action does. -/
inductive Action (D E : Type) where
  | pause
  | continueAct
  | fetch (meta : Option Nat)
  | success (data : Option D) (dataUpdatedAt : Option Nat) (manual : Bool)
  | error (error : QErr E)
  | invalidate
  | setState (patch : StatePatch D E)

/-- The reducer inside `dispatch` (queryInfo.ts).  `now` stands for
`Date.now()`, `canFetchB` for `canFetch(options.networkMode)`, and
`revertState` for the module-level `revertState` captured at fetch start
(`undefined` before any fetch). -/
def reduce {D E : Type} (now : Nat) (canFetchB : Bool)
    (revertState : Option (QueryInfoState D E))
    (state : QueryInfoState D E) : Action D E → QueryInfoState D E
  | .pause => { state with fetchStatus := .paused }
  | .continueAct => { state with fetchStatus := .fetching }
  | .fetch meta =>
      let base : QueryInfoState D E :=
        { state with
          fetchMeta := meta
          fetchStatus := if canFetchB then .fetching else .paused }
      if state.dataUpdatedAt = 0 then { base with error := none, status := .pending }
      else base
  | .success data updatedAt manual =>
      let base : QueryInfoState D E :=
        { state with
          data := data
          dataUpdatedAt := updatedAt.getD now
          error := none
          isInvalidated := false
          status := .success }
      if manual then base else { base with fetchStatus := .idle }
  | .error e =>
      match e, revertState with
      | .cancelled true _, some rs => rs
      | _, _ =>
          { state with
            error := some e
            errorUpdatedAt := now
            fetchStatus := .idle
            status := .error }
  | .invalidate => { state with isInvalidated := true }
  | .setState p => applyPatch state p

/-! ## `fetch()` deduplication (queryInfo.ts, `fetch`)

The closure state of `createQueryInfo` that `fetch` consults: the reducer
state, the module-level `promise` (tagged by identity), the module-level
`revertState`, plus a ghost counter of how many times the caller-supplied
fetch function has been invoked (in `createRetryer`, `run()` calls
`config.fn()` synchronously when `canFetch`). -/
structure FetchSimState (D E : Type) where
  state : QueryInfoState D E
  promise : Option Nat
  revert : Option (QueryInfoState D E)
  fetchCount : Nat
  nextPromiseId : Nat
deriving DecidableEq, Repr

/-- `interface FetchOptions { cancelRefetch?: boolean; meta?: FetchMeta }`. -/
structure FetchOpts where
  cancelRefetch : Option Bool := none
  meta : Option Nat := none
deriving DecidableEq, Repr

/-- The tail of `fetch()` once the dedup check has decided to start a new
fetch: store `revertState = state`, dispatch `fetch` when
`fetchStatus === 'idle' || fetchMeta !== meta`, spawn the retryer (which
invokes the fetch function synchronously when `canFetch`, and otherwise
pauses first, dispatching `pause` via `onPause`), and publish a fresh
promise. -/
def startNewFetch {D E : Type} (now : Nat) (canFetchB : Bool)
    (fetchOptions : Option FetchOpts) (s : FetchSimState D E) :
    Nat × FetchSimState D E :=
  let meta := fetchOptions.bind (·.meta)
  let snapshot := s.state
  let st1 :=
    if s.state.fetchStatus = .idle ∨ s.state.fetchMeta ≠ meta then
      reduce now canFetchB (some snapshot) s.state (.fetch meta)
    else s.state
  let (st2, count) :=
    if canFetchB then (st1, s.fetchCount + 1)
    else (reduce now canFetchB (some snapshot) st1 .pause, s.fetchCount)
  (s.nextPromiseId,
    { state := st2
      promise := some s.nextPromiseId
      revert := some snapshot
      fetchCount := count
      nextPromiseId := s.nextPromiseId + 1 })

/-- `fetch(newOptions?, fetchOptions?)` (queryInfo.ts): when not `idle`,
either silently cancel the running fetch (`dataUpdatedAt` truthy and
`cancelRefetch` set) and start anew, or return the in-flight promise
unchanged (`continueRetry` only clears a flag); otherwise start a new
fetch.  Returns the promise tag handed to the caller. -/
def fetchSim {D E : Type} (now : Nat) (canFetchB : Bool)
    (fetchOptions : Option FetchOpts) (s : FetchSimState D E) :
    Nat × FetchSimState D E :=
  if s.state.fetchStatus ≠ .idle then
    if s.state.dataUpdatedAt ≠ 0 ∧ (fetchOptions.bind (·.cancelRefetch)).getD false then
      -- cancel({ silent: true }) rejects the old retryer silently (no state
      -- dispatch) and falls through to a fresh fetch
      startNewFetch now canFetchB fetchOptions { s with promise := none }
    else
      match s.promise with
      | some p => (p, s)
      | none => startNewFetch now canFetchB fetchOptions s
  else startNewFetch now canFetchB fetchOptions s

/-! ## Reachable-state machine for the `dataUpdatedAt` invariant (C9)

`QueryInfoOptions.initialData` / `initialDataUpdatedAt` (functions already
evaluated to their values), and `getDefaultState` (queryInfo.ts). -/
structure InitialDataOptions (D : Type) where
  initialData : Option D := none
  initialDataUpdatedAt : Option Nat := none
deriving DecidableEq, Repr

/-- `getDefaultState` (queryInfo.ts). -/
def getDefaultState {D E : Type} (now : Nat) (options : InitialDataOptions D) :
    QueryInfoState D E :=
  let data := options.initialData
  let hasData := data.isSome
  let initialDataUpdatedAt := if hasData then options.initialDataUpdatedAt else some 0
  { data := data
    dataUpdatedAt := if hasData then initialDataUpdatedAt.getD now else 0
    error := none
    errorUpdatedAt := 0
    fetchMeta := none
    isInvalidated := false
    status := if hasData then .success else .pending
    fetchStatus := .idle }

/-- Reducer state plus the ghost history flag `everCached` ("data was at some
surviving point successfully cached") and the fetch-time snapshot that an
`error` action with `revert` rolls back to (the snapshot carries its own
ghost flag, since the rollback is atomic). -/
structure GhostState (D E : Type) where
  st : QueryInfoState D E
  everCached : Bool
  revert : Option (QueryInfoState D E × Bool)
deriving DecidableEq, Repr

/-- The externally triggerable transitions listed by the claim.  Each event
carries the `Date.now()` value `now` at which it happens. -/
inductive QEvent (D E : Type) where
  | fetch (now : Nat) (meta : Option Nat) (canFetchB : Bool)
  | fetchSuccess (now : Nat) (data : Option D)
  | setData (now : Nat) (data : D) (updatedAt : Option Nat)
  | errorEv (now : Nat) (e : QErr E)
  | invalidate (now : Nat)
  | pause (now : Nat)
  | continueEv (now : Nat)

/-- One step of the query-info machine.  `fetch` snapshots the state before
dispatching (queryInfo.ts line `revertState = state`); a fetch completion
dispatches `success` with no explicit timestamp; `setData` dispatches a
manual `success` carrying the caller's `updatedAt` verbatim
(`dataUpdatedAt: setDataoptions?.updatedAt`); `onError` suppresses the
dispatch entirely for a silent `CancelledError`, and an `error` action with
`revert` restores the snapshot (including its ghost flag). -/
def ghostStep {D E : Type} (g : GhostState D E) : QEvent D E → GhostState D E
  | .fetch now meta canFetchB =>
      let snapshot := (g.st, g.everCached)
      let st' :=
        if g.st.fetchStatus = .idle ∨ g.st.fetchMeta ≠ meta then
          reduce now canFetchB (some g.st) g.st (.fetch meta)
        else g.st
      { st := st', everCached := g.everCached, revert := some snapshot }
  | .fetchSuccess now data =>
      { g with
        st := reduce now true ((g.revert.map (·.1))) g.st (.success data none false)
        everCached := true }
  | .setData now data updatedAt =>
      { g with
        st := reduce now true ((g.revert.map (·.1))) g.st
            (.success (some data) updatedAt true)
        everCached := true }
  | .errorEv now e =>
      -- onError: `if (!(isCancelledError(error) && error.silent)) dispatch(...)`
      match e, g.revert with
      | .cancelled _ true, _ => g
      | .cancelled true false, some (rs, rg) => { g with st := rs, everCached := rg }
      | _, _ =>
          { g with st := reduce now true (g.revert.map (·.1)) g.st (.error e) }
  | .invalidate now =>
      { g with st := if g.st.isInvalidated then g.st else reduce now true (g.revert.map (·.1)) g.st .invalidate }
  | .pause now => { g with st := reduce now true (g.revert.map (·.1)) g.st .pause }
  | .continueEv now => { g with st := reduce now true (g.revert.map (·.1)) g.st .continueAct }

/-- Run the machine from the configured initial state. -/
def ghostRun {D E : Type} (now₀ : Nat) (options : InitialDataOptions D)
    (events : List (QEvent D E)) : GhostState D E :=
  events.foldl ghostStep
    { st := getDefaultState now₀ options
      everCached := options.initialData.isSome
      revert := none }

/-! ## Dehydration / hydration (query.ts and mutationCache.ts `isGeneratedKey`)

The query cache's `Map` is modelled as an association list from `queryHash`
to its entry; each entry keeps the query's `key` string and its state. -/

/-- `isGeneratedKey = key => key.startsWith('$q$')` (mutationCache.ts); the
prefix test is expressed on the character lists. -/
def isGeneratedKey (key : String) : Bool :=
  "$q$".toList.isPrefixOf key.toList

structure CacheEntry (D E : Type) where
  key : String
  state : QueryInfoState D E
deriving DecidableEq, Repr

abbrev Cache (D E : Type) := List (String × CacheEntry D E)

/-- `interface DehydratedQuery` (query.ts): the fields relevant here. -/
structure DehydratedQuery (D E : Type) where
  key : String
  queryHash : String
  state : QueryInfoState D E
deriving DecidableEq, Repr

/-- `defaultShouldDehydrateQuery = queryInfo => queryInfo.state.status === 'success'`. -/
def defaultShouldDehydrateQuery {D E : Type} (e : CacheEntry D E) : Bool :=
  e.state.status = .success

/-- `dehydrate` (query.ts): over all cache entries, keep those whose key is
not generated and that pass `shouldDehydrateQuery ?? defaultShouldDehydrateQuery`,
snapshotting key, hash and state. -/
def dehydrate {D E : Type} (shouldDehydrateQuery : Option (CacheEntry D E → Bool))
    (cache : Cache D E) : List (DehydratedQuery D E) :=
  let filterQuery := shouldDehydrateQuery.getD defaultShouldDehydrateQuery
  cache.flatMap fun (h, e) =>
    if !isGeneratedKey e.key && filterQuery e then [⟨e.key, h, e.state⟩] else []

/-- First-match lookup in the hash → entry map (`queryCache.get`). -/
def lookupCache {D E : Type} (h : String) : Cache D E → Option (CacheEntry D E)
  | [] => none
  | (h', e) :: rest => if h' = h then some e else lookupCache h rest

/-- Replace the entry stored at hash `h` (the effect of
`queryInfo.setState(fullState)`, since merging a complete state object
replaces every field). -/
def updateCache {D E : Type} (h : String) (e : CacheEntry D E) : Cache D E → Cache D E
  | [] => []
  | (h', e') :: rest =>
      if h' = h then (h', e) :: rest else (h', e') :: updateCache h e rest

/-- `{ ...state, fetchStatus: 'idle' }`: the dehydrated state with its fetch
status reset. -/
def forceIdle {D E : Type} (s : QueryInfoState D E) : QueryInfoState D E :=
  { s with fetchStatus := FetchStatus.idle }

@[simp] theorem forceIdle_dataUpdatedAt {D E : Type} (s : QueryInfoState D E) :
    (forceIdle s).dataUpdatedAt = s.dataUpdatedAt := rfl

/-- The body of `queries.forEach` in `hydrate` (query.ts): force
`fetchStatus` to `'idle'`; when a live entry exists, overwrite it only if
its data is strictly older, otherwise skip; when none exists, build a new
entry carrying the dehydrated state. -/
def hydrateOne {D E : Type} (c : Cache D E) (q : DehydratedQuery D E) : Cache D E :=
  let dehydratedState := forceIdle q.state
  match lookupCache q.queryHash c with
  | some live =>
      if live.state.dataUpdatedAt < dehydratedState.dataUpdatedAt then
        updateCache q.queryHash { live with state := dehydratedState } c
      else c
  | none => c ++ [(q.queryHash, ⟨q.key, dehydratedState⟩)]

/-- `hydrate` (query.ts). -/
def hydrate {D E : Type} (c : Cache D E) (queries : List (DehydratedQuery D E)) :
    Cache D E :=
  queries.foldl hydrateOne c

/-! ## Mutation trigger (mutationInfo.ts)

`trigger` is an async function; since the engine is single-threaded and every
callback is awaited in sequence, its behaviour is captured by the ordered
trace of observable events it produces. -/

inductive MutationStatus where
  | idle
  | mutating
  | success
  | error
deriving DecidableEq, Repr

/-- Observable events of one `trigger` invocation: a registry
(`cache.config.*`) or instance (`options.*`) callback completing, a
`dispatch`, and the settlement of the promise returned to the caller. -/
inductive MEvent where
  | cacheOnSuccess
  | instOnSuccess
  | cacheOnError
  | instOnError
  | cacheOnSettled
  | instOnSettled
  | dispatched (s : MutationStatus)
  | settled (ok : Bool)
deriving DecidableEq, Repr

/-- Which of the six optional callbacks are configured (`?.` presence). -/
structure TriggerCallbacks where
  cacheOnSuccess : Bool
  instOnSuccess : Bool
  cacheOnError : Bool
  instOnError : Bool
  cacheOnSettled : Bool
  instOnSettled : Bool
deriving DecidableEq, Repr

/-- `await cb?.(…)`: emits the callback's completion event when configured. -/
def runCb (present : Bool) (e : MEvent) : StateM (List MEvent) Unit :=
  if present then fun log => ((), log ++ [e]) else pure ()

def emitE (e : MEvent) : StateM (List MEvent) Unit :=
  fun log => ((), log ++ [e])

/-- `trigger(variables)` (mutationInfo.ts), with the fetch outcome of
`executeMutation` (retryer exhausted) given as `outcome`.  `restored` is
`state.status === 'mutating'` on entry; the error path's `dispatch` sits in
a `finally`, so it runs after the callbacks and before the rejection
propagates to the caller. -/
def triggerM {D E : Type} (cbs : TriggerCallbacks) (restored : Bool)
    (outcome : Except E D) : StateM (List MEvent) (Except E D) := do
  if !restored then emitE (.dispatched .mutating)
  match outcome with
  | .ok data => do
      runCb cbs.cacheOnSuccess .cacheOnSuccess
      runCb cbs.instOnSuccess .instOnSuccess
      runCb cbs.cacheOnSettled .cacheOnSettled
      runCb cbs.instOnSettled .instOnSettled
      emitE (.dispatched .success)
      emitE (.settled true)
      pure (.ok data)
  | .error e => do
      runCb cbs.cacheOnError .cacheOnError
      runCb cbs.instOnError .instOnError
      runCb cbs.cacheOnSettled .cacheOnSettled
      runCb cbs.instOnSettled .instOnSettled
      emitE (.dispatched .error)
      emitE (.settled false)
      pure (.error e)

/-- The trace and result of one `trigger` run. -/
def triggerTrace {D E : Type} (cbs : TriggerCallbacks) (restored : Bool)
    (outcome : Except E D) : List MEvent × Except E D :=
  let (r, log) := (triggerM cbs restored outcome).run []
  (log, r)

/-- The callback order the claim specifies: registry then instance for the
outcome phase, then registry then instance for the settled phase. -/
def specCallbackOrder (cbs : TriggerCallbacks) (ok : Bool) : List MEvent :=
  (if ok then
    (if cbs.cacheOnSuccess then [MEvent.cacheOnSuccess] else []) ++
    (if cbs.instOnSuccess then [MEvent.instOnSuccess] else [])
  else
    (if cbs.cacheOnError then [MEvent.cacheOnError] else []) ++
    (if cbs.instOnError then [MEvent.instOnError] else [])) ++
  (if cbs.cacheOnSettled then [MEvent.cacheOnSettled] else []) ++
  (if cbs.instOnSettled then [MEvent.instOnSettled] else [])

/-! ## Infinite query behavior (infiniteQueryBehavior.ts)

Page params are numbers in the source (`initialPageParam: number`); a
`null`/`undefined` produced by the page-param functions is `none`.  The
entries of `pageParams` are `Option Int` because the raw `param` value is
pushed verbatim.  A fetch call always resolves here (retry/cancellation are
the retryer's concern); the `Nat` component threads the number of times the
caller-supplied fetcher ran. -/

structure InfiniteData (D : Type) where
  pages : List D
  pageParams : List (Option Int)
deriving DecidableEq, Repr

/-- `getNextPageParam(lastPage, allPages, lastPageParam, allPageParams)`;
the first and third arguments may be `undefined` when out of range. -/
structure InfiniteOptions (D : Type) where
  getNextPageParam : Option D → List D → Option Int → List (Option Int) → Option Int
  getPreviousPageParam :
    Option (Option D → List D → Option Int → List (Option Int) → Option Int) := none
  initialPageParam : Int
  maxPages : Nat := 0

/-- `addToEnd` (utils.ts); `max = 0` encodes an absent `maxPages`. -/
def addToEnd {α : Type} (items : List α) (item : α) (max : Nat := 0) : List α :=
  let newItems := items ++ [item]
  if max ≠ 0 ∧ newItems.length > max then newItems.drop 1 else newItems

/-- `addToStart` (utils.ts). -/
def addToStart {α : Type} (items : List α) (item : α) (max : Nat := 0) : List α :=
  let newItems := item :: items
  if max ≠ 0 ∧ newItems.length > max then newItems.dropLast else newItems

/-- The module-level `getNextPageParam(options, {pages, pageParams})`
(infiniteQueryBehavior.ts): applies the caller's function at the last page.
A stored `null` param and an out-of-range index are both passed as nullish. -/
def getNextPageParamTop {D : Type} (options : InfiniteOptions D)
    (d : InfiniteData D) : Option Int :=
  let lastIndex := d.pages.length - 1
  options.getNextPageParam (d.pages.get? lastIndex) d.pages
    ((d.pageParams.get? lastIndex).join) d.pageParams

/-- The module-level `getPreviousPageParam(options, data)`. -/
def getPreviousPageParamTop {D : Type} (options : InfiniteOptions D)
    (d : InfiniteData D) : Option Int :=
  match options.getPreviousPageParam with
  | none => none
  | some f => f (d.pages.get? 0) d.pages ((d.pageParams.get? 0).join) d.pageParams

/-- `hasNextPage` (infiniteQueryBehavior.ts): `if (!data) return false;
return getNextPageParam(options, data) != null`.  No fetch function is in
scope at all. -/
def hasNextPage {D : Type} (options : InfiniteOptions D)
    (data : Option (InfiniteData D)) : Bool :=
  match data with
  | none => false
  | some d => (getNextPageParamTop options d).isSome

/-- `hasPreviousPage` (infiniteQueryBehavior.ts). -/
def hasPreviousPage {D : Type} (options : InfiniteOptions D)
    (data : Option (InfiniteData D)) : Bool :=
  match data, options.getPreviousPageParam with
  | none, _ => false
  | _, none => false
  | some d, some _ => (getPreviousPageParamTop options d).isSome

/-- `fetchPage(data, param, previous)` (the inner async helper of
`onFetch`): return the data untouched when the param is nullish and a page
already exists; otherwise run the fetcher and append (or prepend) the page
and its param, trimming at `maxPages`. -/
def fetchPage {D : Type} (maxPages : Nat) (fetcher : Option Int → D)
    (previous : Bool) (dc : InfiniteData D × Nat) (param : Option Int) :
    InfiniteData D × Nat :=
  let (data, count) := dc
  if param.isNone ∧ ¬data.pages.isEmpty then (data, count)
  else
    let page := fetcher param
    if previous then
      ({ pages := addToStart data.pages page maxPages
         pageParams := addToStart data.pageParams param maxPages }, count + 1)
    else
      ({ pages := addToEnd data.pages page maxPages
         pageParams := addToEnd data.pageParams param maxPages }, count + 1)

/-- The `for (let i = 1; i < remainingPages; i++)` loop of the refetch
branch: each round recomputes the next param from the accumulated result
and calls `fetchPage` (which is a no-op once the param comes back nullish). -/
def refetchRounds {D : Type} (options : InfiniteOptions D)
    (fetcher : Option Int → D) : Nat → InfiniteData D × Nat → InfiniteData D × Nat
  | 0, dc => dc
  | k + 1, dc =>
      let param := getNextPageParamTop options dc.1
      refetchRounds options fetcher k
        (fetchPage options.maxPages fetcher false dc param)

inductive FetchDirection where
  | forward
  | backward
deriving DecidableEq, Repr

/-- The replaced `context.fetchFn` built by `onFetch`
(infiniteQueryBehavior.ts): on a directional fetch-more, fetch exactly one
page; otherwise fetch the first page at `oldPageParams[0] ?? initialPageParam`
and then `(pages ?? oldPages.length) - 1` further rounds. -/
def onFetchFn {D : Type} (options : InfiniteOptions D) (fetcher : Option Int → D)
    (pagesRequested : Option Nat) (direction : Option FetchDirection)
    (oldData : Option (InfiniteData D)) : InfiniteData D × Nat :=
  let oldPages := (oldData.map (·.pages)).getD []
  let oldPageParams := (oldData.map (·.pageParams)).getD []
  match direction, oldPages.isEmpty with
  | some dir, false =>
      let previous := dir = .backward
      let oldDataPair : InfiniteData D := { pages := oldPages, pageParams := oldPageParams }
      let param :=
        if previous then getPreviousPageParamTop options oldDataPair
        else getNextPageParamTop options oldDataPair
      fetchPage options.maxPages fetcher previous (oldDataPair, 0) param
  | _, _ =>
      let firstParam : Option Int :=
        some (((oldPageParams.get? 0).join).getD options.initialPageParam)
      let r0 := fetchPage options.maxPages fetcher false
        ({ pages := [], pageParams := [] }, 0) firstParam
      let remainingPages := pagesRequested.getD oldPages.length
      refetchRounds options fetcher (remainingPages - 1) r0

/-- Modelled from the spec: the plain refetch loop as §4.9 describes it —
iterate forward, recomputing each page's parameter with `getNextPageParam`,
and stop as soon as the page bound is reached or the parameter comes back
nullish, so the result holds exactly the pages fetched so far. -/
def specRefetchRounds {D : Type} (options : InfiniteOptions D)
    (fetcher : Option Int → D) : Nat → InfiniteData D × Nat → InfiniteData D × Nat
  | 0, dc => dc
  | k + 1, dc =>
      match getNextPageParamTop options dc.1 with
      | none => dc
      | some p =>
          specRefetchRounds options fetcher k
            (fetchPage options.maxPages fetcher false dc (some p))

/-- Modelled from the spec: a full plain refetch with early stopping. -/
def specRefetch {D : Type} (options : InfiniteOptions D) (fetcher : Option Int → D)
    (pagesRequested : Option Nat) (oldData : Option (InfiniteData D)) :
    InfiniteData D × Nat :=
  let oldPages := (oldData.map (·.pages)).getD []
  let oldPageParams := (oldData.map (·.pageParams)).getD []
  let firstParam : Option Int :=
    some (((oldPageParams.get? 0).join).getD options.initialPageParam)
  let r0 := fetchPage options.maxPages fetcher false
    ({ pages := [], pageParams := [] }, 0) firstParam
  specRefetchRounds options fetcher ((pagesRequested.getD oldPages.length) - 1) r0

/-! ## ObservableQuery result derivation (observableQuery.ts, `createResult`)

Data values and selector functions are referenced by identifier: JavaScript
`===` on them is equality of identifiers, with `selEnv` giving each selector
id its behaviour (`.error` models a thrown exception).  Data values are
scalars, for which `replaceData`'s structural sharing is the identity on the
new value.  Placeholder data is modelled in its plain-value form (the
function form only changes how the value is obtained).  The
`_optimisticResults` adjustment of `fetchStatus`/`status` and the `refetch`
method (a stable reference) are outside this model. -/

/-- The fields of `ObservableQueryResult` that `shallowEqualObjects` compares
(minus the stable `refetch` reference). -/
structure ResultM where
  data : Option Nat
  error : Option Nat
  isLoading : Bool
  isFetching : Bool
  isPlaceholderData : Bool
  isStale : Bool
deriving DecidableEq, Repr

/-- The closure variables of `createObservableQuery` that `createResult` and
`updateResult` read and write: `currentResult`, `currentResultState?.data`,
`currentResultOptions?.select`, `currentResultOptions?.placeholderData`,
`selectResult` and `selectError` (`none` at the `Option (⋯)` layer encodes
that the snapshot does not exist yet). -/
structure ObsSt where
  currentResult : Option ResultM
  currentResultStateData : Option (Option Nat)
  currentResultSelect : Option (Option Nat)
  currentResultPlaceholder : Option (Option Nat)
  selectResult : Option Nat
  selectError : Option Nat
deriving DecidableEq, Repr

/-- The obs-query state before any derivation ran. -/
def freshObsSt : ObsSt :=
  { currentResult := none
    currentResultStateData := none
    currentResultSelect := none
    currentResultPlaceholder := none
    selectResult := none
    selectError := none }

/-- The `options.select` branch of `createResult`: returns
`(data, selectResult, selectError, invocations)` — memoized when the
previous result exists and both the data reference and the selector
reference are unchanged, otherwise applying the selector (a throw leaves
`data` undefined and `selectResult` untouched).  `replaceData` is the
identity on the new value for scalar data. -/
def selectStep (selEnv : Nat → Nat → Except Nat Nat) (stateData : Option Nat)
    (selectOpt : Option Nat) (s : ObsSt) :
    Option Nat × Option Nat × Option Nat × Nat :=
  match selectOpt, stateData with
  | some selId, some d =>
      if s.currentResult.isSome ∧ s.currentResultStateData = some stateData ∧
          s.currentResultSelect = some selectOpt then
        (s.selectResult, s.selectResult, s.selectError, 0)
      else
        match selEnv selId d with
        | .ok v => (some v, some v, none, 1)
        | .error err => (none, s.selectResult, some err, 1)
  | _, _ => (stateData, s.selectResult, s.selectError, 0)

/-- The placeholder branch of `createResult`: returns
`(data, status, isPlaceholderData, selectError, invocations)`.  The
placeholder value is memoized by reference equality of the placeholder
source while the previous result was itself placeholder data; a fresh
placeholder runs the selector over it (a throw keeps the raw placeholder
value, recorded in `selectError`). -/
def placeholderStep (selEnv : Nat → Nat → Except Nat Nat)
    (selectOpt placeholderOpt : Option Nat) (status₀ : QueryStatus)
    (data₁ selectError₁ : Option Nat) (s : ObsSt) :
    Option Nat × QueryStatus × Bool × Option Nat × Nat :=
  if placeholderOpt.isSome ∧ data₁.isNone ∧ status₀ = .pending then
    let memoPH : Option Nat × Option Nat × Nat :=
      if (s.currentResult.map (·.isPlaceholderData)).getD false ∧
          s.currentResultPlaceholder = some placeholderOpt then
        (s.currentResult.bind (·.data), selectError₁, 0)
      else
        match selectOpt, placeholderOpt with
        | some selId, some p =>
            match selEnv selId p with
            | .ok v => (some v, none, 1)
            | .error err => (some p, some err, 1)
        | _, _ => (placeholderOpt, selectError₁, 0)
    if memoPH.1.isSome then
      (memoPH.1, QueryStatus.success, true, memoPH.2.1, memoPH.2.2)
    else (data₁, status₀, false, memoPH.2.1, memoPH.2.2)
  else (data₁, status₀, false, selectError₁, 0)

/-- The tail of `createResult`: a recorded `selectError` is surfaced as the
result's error with the last good selected data and status `'error'`. -/
def finalizeResult (stateError : Option Nat) (fetchStatus : FetchStatus)
    (isStaleB : Bool) (selectResult₁ data₂ : Option Nat) (status₂ : QueryStatus)
    (isPlaceholder : Bool) (selectError₂ : Option Nat) : ResultM :=
  match selectError₂ with
  | some err =>
      { data := selectResult₁
        error := some err
        isLoading := false
        isFetching := fetchStatus = .fetching
        isPlaceholderData := isPlaceholder
        isStale := isStaleB }
  | none =>
      { data := data₂
        error := stateError
        isLoading := status₂ = .pending
        isFetching := fetchStatus = .fetching
        isPlaceholderData := isPlaceholder
        isStale := isStaleB }

/-- `createResult` (observableQuery.ts), select / placeholder / selectError
part.  Returns the result together with the new `selectResult`,
`selectError` and the number of selector invocations this derivation made. -/
def createResultM (selEnv : Nat → Nat → Except Nat Nat)
    (stateData : Option Nat) (stateError : Option Nat)
    (status₀ : QueryStatus) (fetchStatus : FetchStatus)
    (selectOpt : Option Nat) (placeholderOpt : Option Nat)
    (isStaleB : Bool) (s : ObsSt) : ResultM × Option Nat × Option Nat × Nat :=
  let step₁ := selectStep selEnv stateData selectOpt s
  let step₂ := placeholderStep selEnv selectOpt placeholderOpt status₀
    step₁.1 step₁.2.2.1 s
  let result := finalizeResult stateError fetchStatus isStaleB
    step₁.2.1 step₂.1 step₂.2.1 step₂.2.2.1 step₂.2.2.2.1
  (result, step₁.2.1, step₂.2.2.2.1, step₁.2.2.2 + step₂.2.2.2.2)

/-- `updateResult` (observableQuery.ts): derive the next result, snapshot
state/options, and replace `currentResult` unless shallow-equal to the
previous one.  Returns the new closure state and the derivation's selector
invocation count. -/
def updateResultM (selEnv : Nat → Nat → Except Nat Nat)
    (stateData : Option Nat) (stateError : Option Nat)
    (status₀ : QueryStatus) (fetchStatus : FetchStatus)
    (selectOpt : Option Nat) (placeholderOpt : Option Nat)
    (isStaleB : Bool) (s : ObsSt) : ObsSt × Nat :=
  let r := createResultM selEnv stateData stateError status₀ fetchStatus
    selectOpt placeholderOpt isStaleB s
  let next := r.1
  let s₁ : ObsSt :=
    { currentResult := s.currentResult
      currentResultStateData := some stateData
      currentResultSelect := some selectOpt
      currentResultPlaceholder := some placeholderOpt
      selectResult := r.2.1
      selectError := r.2.2.1 }
  if s.currentResult = some next then (s₁, r.2.2.2)
  else ({ s₁ with currentResult := some next }, r.2.2.2)

/-- `k` consecutive derivations with unchanged state and options, returning
the final closure state and the total number of selector invocations. -/
def deriveRepeatedly (selEnv : Nat → Nat → Except Nat Nat)
    (stateData : Option Nat) (stateError : Option Nat)
    (status₀ : QueryStatus) (fetchStatus : FetchStatus)
    (selectOpt : Option Nat) (placeholderOpt : Option Nat)
    (isStaleB : Bool) : Nat → ObsSt → ObsSt × Nat
  | 0, s => (s, 0)
  | k + 1, s =>
      let r := updateResultM selEnv stateData stateError status₀ fetchStatus
        selectOpt placeholderOpt isStaleB s
      let rest := deriveRepeatedly selEnv stateData stateError status₀ fetchStatus
        selectOpt placeholderOpt isStaleB k r.1
      (rest.1, r.2 + rest.2)

/-! ## Key hashing (utils.ts, `hashKey`)

JSON-representable values.  `jobj` is a plain object: the only values the
sorting replacer rewrites.  JavaScript objects have unique keys; objects
with duplicate keys are not denotable, which the reorder relation below
enforces. -/

inductive JVal where
  | jnull
  | jbool (b : Bool)
  | jnum (n : Int)
  | jstr (s : String)
  | jarr (elems : List JVal)
  | jobj (fields : List (String × JVal))
deriving Repr

/-- Ordering pairs by their key: the comparison `Object.keys(val).sort()`
applies (lexicographic on the key strings). -/
def keyLE (p q : String × JVal) : Prop := p.1 ≤ q.1

instance : DecidableRel keyLE := fun p q => inferInstanceAs (Decidable (p.1 ≤ q.1))

instance : IsTotal (String × JVal) keyLE := ⟨fun p q => le_total p.1 q.1⟩

instance : IsTrans (String × JVal) keyLE := ⟨fun _ _ _ h h' => le_trans h h'⟩

mutual

/-- The effect of `JSON.stringify`'s replacer in `hashKey` (utils.ts): every
plain object is re-serialized with its keys sorted; since `stringify`
applies the replacer again to the children of the returned copy, the
rewrite reaches every nesting level. -/
def deepSort : JVal → JVal
  | .jarr xs => .jarr (deepSortList xs)
  | .jobj fields => .jobj (List.insertionSort keyLE (deepSortFields fields))
  | .jnull => .jnull
  | .jbool b => .jbool b
  | .jnum n => .jnum n
  | .jstr s => .jstr s

def deepSortList : List JVal → List JVal
  | [] => []
  | x :: xs => deepSort x :: deepSortList xs

def deepSortFields : List (String × JVal) → List (String × JVal)
  | [] => []
  | (k, v) :: rest => (k, deepSort v) :: deepSortFields rest

end

mutual

/-- JSON serialization of an already-replaced value (string escaping is
irrelevant to the stability property and omitted). -/
def jsonStringify : JVal → String
  | .jnull => "null"
  | .jbool true => "true"
  | .jbool false => "false"
  | .jnum n => toString n
  | .jstr s => "\"" ++ s ++ "\""
  | .jarr xs => "[" ++ jsonStringifyList xs ++ "]"
  | .jobj fields => "\x7b" ++ jsonStringifyFields fields ++ "\x7d"

def jsonStringifyList : List JVal → String
  | [] => ""
  | [x] => jsonStringify x
  | x :: y :: xs => jsonStringify x ++ "," ++ jsonStringifyList (y :: xs)

def jsonStringifyFields : List (String × JVal) → String
  | [] => ""
  | [(k, v)] => "\"" ++ k ++ "\":" ++ jsonStringify v
  | (k, v) :: p :: xs =>
      "\"" ++ k ++ "\":" ++ jsonStringify v ++ "," ++ jsonStringifyFields (p :: xs)

end

/-- `hashKey = fullKey => JSON.stringify(fullKey, sortingReplacer)`
(utils.ts). -/
def hashKey (fullKey : JVal) : String :=
  jsonStringify (deepSort fullKey)

/-- `getFullKey(key, variables)` (utils.ts): `[key]` when the variables are
undefined, `[key, variables]` otherwise. -/
def getFullKey (key : String) (vars : Option JVal) : JVal :=
  match vars with
  | none => .jarr [.jstr key]
  | some v => .jarr [.jstr key, v]

/-- Hash of a key/variables pair as the cache computes it. -/
def hashFullKey (key : String) (vars : Option JVal) : String :=
  hashKey (getFullKey key vars)

def keysOf (l : List (String × JVal)) : List String := l.map (·.1)

def lookupKey (k : String) : List (String × JVal) → Option JVal
  | [] => none
  | (k', v) :: rest => if k' = k then some v else lookupKey k rest

mutual

/-- Equality up to recursive reordering of plain-object keys: primitives and
arrays compare rigidly; two objects are related when both have (JavaScript-
guaranteed) duplicate-free keys, the same number of fields, and every field
of the first finds the same key in the second with a related value. -/
def reordEq : JVal → JVal → Bool
  | .jnull, .jnull => true
  | .jbool a, .jbool b => a == b
  | .jnum a, .jnum b => a == b
  | .jstr a, .jstr b => a == b
  | .jarr xs, .jarr ys => reordList xs ys
  | .jobj xs, .jobj ys =>
      (keysOf xs).Nodup ∧ (keysOf ys).Nodup ∧ xs.length = ys.length
        ∧ reordFields xs ys = true
  | _, _ => false

def reordList : List JVal → List JVal → Bool
  | [], [] => true
  | x :: xs, y :: ys => reordEq x y && reordList xs ys
  | _ :: _, [] => false
  | [], _ :: _ => false

def reordFields : List (String × JVal) → List (String × JVal) → Bool
  | [], _ => true
  | (k, v) :: rest, ys =>
      (match lookupKey k ys with
       | some w => reordEq v w
       | none => false) && reordFields rest ys

end

/-! ## Theorems -/

theorem shouldRetryB_eq_true_iff {E : Type} (r : RetryValue E) (n : Nat) (e : E) :
    shouldRetryB r n e = true ↔ specShouldRetry r n e := by
  cases r with
  | bool b => cases b <;> simp [shouldRetryB, specShouldRetry]
  | num m => simp [shouldRetryB, specShouldRetry]
  | fn f => simp [shouldRetryB, specShouldRetry]

/-- C2: on a failed attempt with failure count `n` and error `e`, the retryer
retries iff the (effective) retry option is `true`, a number greater than
`n`, or a function returning `true` on `(n, e)`; when it does not retry it
rejects with the original error; a scheduled retry increments the failure
count and waits `retryDelay(n, e)` ms, `min(1000·2^n, 30000)` by default. -/
theorem claim_C2_retry_policy {E : Type} (cfg : RetryerConfig E) (st : RetryerState)
    (e : E) (hres : st.isResolved = false) (hcanc : st.isRetryCancelled = false) :
    ((∃ d st', runOnFailure cfg st e = .retryAfter d st') ↔
      specShouldRetry (effectiveRetry cfg) st.failureCount e) ∧
    (¬ specShouldRetry (effectiveRetry cfg) st.failureCount e →
      runOnFailure cfg st e = .reject e) ∧
    (∀ d st', runOnFailure cfg st e = .retryAfter d st' →
      st'.failureCount = st.failureCount + 1 ∧
        d = effectiveDelay cfg st.failureCount e) ∧
    (cfg.retryDelay = none →
      effectiveDelay cfg st.failureCount e = min (1000 * 2 ^ st.failureCount) 30000) ∧
    (∀ f, cfg.retryDelay = some (.fn f) →
      effectiveDelay cfg st.failureCount e = f st.failureCount e) := by
  have hiff := shouldRetryB_eq_true_iff (effectiveRetry cfg) st.failureCount e
  cases hb : shouldRetryB (effectiveRetry cfg) st.failureCount e with
  | true =>
      have hrun : runOnFailure cfg st e =
          .retryAfter (effectiveDelay cfg st.failureCount e)
            { st with failureCount := st.failureCount + 1 } := by
        simp [runOnFailure, hres, hcanc, hb]
      refine ⟨⟨fun _ => hiff.mp hb, fun _ => ⟨_, _, hrun⟩⟩,
        fun hn => absurd (hiff.mp hb) hn, fun d st' h' => ?_,
        fun h => by simp [effectiveDelay, h, defaultRetryDelay],
        fun f h => by simp [effectiveDelay, h]⟩
      rw [hrun] at h'
      injection h' with hd hs
      exact ⟨by rw [← hs], hd.symm⟩
  | false =>
      have hnot : ¬ specShouldRetry (effectiveRetry cfg) st.failureCount e := fun h => by
        rw [hiff.mpr h] at hb
        exact Bool.true_eq_false.mp hb
      have hrun : runOnFailure cfg st e = .reject e := by
        simp [runOnFailure, hres, hcanc, hb]
      refine ⟨⟨?_, fun h => absurd h hnot⟩, fun _ => hrun, fun d st' h' => ?_,
        fun h => by simp [effectiveDelay, h, defaultRetryDelay],
        fun f h => by simp [effectiveDelay, h]⟩
      · rintro ⟨d, st', h'⟩
        rw [hrun] at h'
        cases h'
      · rw [hrun] at h'
        cases h'

theorem claim_C2_retry_policy_witness :
    ((∃ d st', runOnFailure (E := Nat)
        ⟨some (.num 3), none, false⟩ ⟨1, false, false⟩ 0 = .retryAfter d st') ↔
      specShouldRetry (effectiveRetry ⟨some (.num 3), none, false⟩) 1 0) ∧
    (¬ specShouldRetry (effectiveRetry (E := Nat) ⟨some (.num 3), none, false⟩) 1 0 →
      runOnFailure ⟨some (.num 3), none, false⟩ ⟨1, false, false⟩ 0 = .reject 0) ∧
    (∀ d st', runOnFailure (E := Nat)
        ⟨some (.num 3), none, false⟩ ⟨1, false, false⟩ 0 = .retryAfter d st' →
      st'.failureCount = 1 + 1 ∧ d = effectiveDelay ⟨some (.num 3), none, false⟩ 1 0) ∧
    ((none : Option (RetryDelayValue Nat)) = none →
      effectiveDelay (E := Nat) ⟨some (.num 3), none, false⟩ 1 0 =
        min (1000 * 2 ^ 1) 30000) ∧
    (∀ f, (none : Option (RetryDelayValue Nat)) = some (.fn f) →
      effectiveDelay ⟨some (.num 3), none, false⟩ 1 0 = f 1 0) :=
  claim_C2_retry_policy ⟨some (.num 3), none, false⟩ ⟨1, false, false⟩ 0 rfl rfl

/-- C3: an `error` action carrying a `CancelledError` with `revert` rolls the
whole state back to the snapshot taken when the fetch began; any other error
records the error, stamps `errorUpdatedAt`, sets `status := 'error'` and
`fetchStatus := 'idle'`, and leaves `data` and `dataUpdatedAt` untouched. -/
theorem claim_C3_error_action {D E : Type} (now : Nat) (canFetchB : Bool)
    (rv : Option (QueryInfoState D E)) (state : QueryInfoState D E) :
    (∀ rs s, rv = some rs →
      reduce now canFetchB rv state (.error (.cancelled true s)) = rs) ∧
    (∀ e : QErr E, (∀ s, e ≠ .cancelled true s) →
      reduce now canFetchB rv state (.error e) =
        { state with
          error := some e
          errorUpdatedAt := now
          fetchStatus := .idle
          status := .error } ∧
      (reduce now canFetchB rv state (.error e)).data = state.data ∧
      (reduce now canFetchB rv state (.error e)).dataUpdatedAt = state.dataUpdatedAt) := by
  constructor
  · rintro rs s rfl
    rfl
  · intro e he
    have hred : reduce now canFetchB rv state (.error e) =
        { state with
          error := some e
          errorUpdatedAt := now
          fetchStatus := .idle
          status := .error } := by
      cases e with
      | cancelled r s =>
          cases r with
          | true => exact absurd rfl (he s)
          | false => cases rv <;> rfl
      | err e₀ => cases rv <;> rfl
    exact ⟨hred, by rw [hred], by rw [hred]⟩

theorem claim_C3_error_action_witness :
    (∀ rs s, (some (⟨some 1, 3, none, 0, none, false, .success, .idle⟩ :
        QueryInfoState Nat Nat)) = some rs →
      reduce 9 true (some ⟨some 1, 3, none, 0, none, false, .success, .idle⟩)
        ⟨some 2, 4, none, 0, none, false, .success, .fetching⟩
        (.error (.cancelled true s)) = rs) ∧
    (∀ e : QErr Nat, (∀ s, e ≠ .cancelled true s) →
      reduce 9 true (some ⟨some 1, 3, none, 0, none, false, .success, .idle⟩)
        ⟨some 2, 4, none, 0, none, false, .success, .fetching⟩ (.error e) =
        { (⟨some 2, 4, none, 0, none, false, .success, .fetching⟩ :
            QueryInfoState Nat Nat) with
          error := some e
          errorUpdatedAt := 9
          fetchStatus := .idle
          status := .error } ∧
      (reduce 9 true (some ⟨some 1, 3, none, 0, none, false, .success, .idle⟩)
        ⟨some 2, 4, none, 0, none, false, .success, .fetching⟩ (.error e)).data =
          some 2 ∧
      (reduce 9 true (some ⟨some 1, 3, none, 0, none, false, .success, .idle⟩)
        ⟨some 2, 4, none, 0, none, false, .success, .fetching⟩
        (.error e)).dataUpdatedAt = 4) :=
  claim_C3_error_action 9 true (some ⟨some 1, 3, none, 0, none, false, .success, .idle⟩)
    ⟨some 2, 4, none, 0, none, false, .success, .fetching⟩

/-- C10: every `success` transition — a completed fetch (`manual = false`) as
well as a manual `setData` call (which dispatches `success` with
`manual = true`) — resets `isInvalidated` to `false` and clears `error`. -/
theorem claim_C10_success_clears_invalidation {D E : Type} :
    (∀ (now : Nat) (cf : Bool) (rv : Option (QueryInfoState D E))
        (state : QueryInfoState D E) (data : Option D) (updatedAt : Option Nat)
        (manual : Bool),
      (reduce now cf rv state (.success data updatedAt manual)).isInvalidated = false ∧
      (reduce now cf rv state (.success data updatedAt manual)).error = none) ∧
    (∀ (g : GhostState D E) (now : Nat) (d : D) (u : Option Nat),
      (ghostStep g (.setData now d u)).st.isInvalidated = false ∧
      (ghostStep g (.setData now d u)).st.error = none) ∧
    (∀ (g : GhostState D E) (now : Nat) (d : Option D),
      (ghostStep g (.fetchSuccess now d)).st.isInvalidated = false ∧
      (ghostStep g (.fetchSuccess now d)).st.error = none) := by
  refine ⟨fun now cf rv state data updatedAt manual => ?_,
    fun g now d u => ?_, fun g now d => ?_⟩
  · cases manual <;> exact ⟨rfl, rfl⟩
  · exact ⟨rfl, rfl⟩
  · exact ⟨rfl, rfl⟩

/-- C1: while a fetch is in flight (`fetchStatus ≠ 'idle'` with a live
promise), a second `fetch()` without `cancelRefetch` — or with it but with
no data ever cached — returns that same promise and leaves the state (and
in particular the count of fetch-function invocations) untouched; hence two
consecutive `fetch()` calls on a fresh entry run the fetch function exactly
once and hand both callers the same promise. -/
theorem claim_C1_fetch_dedup {D E : Type} :
    (∀ (now : Nat) (cf : Bool) (s : FetchSimState D E) (opts : Option FetchOpts)
        (p : Nat),
      s.state.fetchStatus ≠ .idle → s.promise = some p →
      ((opts.bind (·.cancelRefetch)).getD false = false ∨ s.state.dataUpdatedAt = 0) →
      fetchSim now cf opts s = (p, s)) ∧
    (∀ (now : Nat) (s₀ : FetchSimState D E),
      s₀.state.fetchStatus = .idle → s₀.promise = none →
      (fetchSim now true none (fetchSim now true none s₀).2).2.fetchCount =
          s₀.fetchCount + 1 ∧
      (fetchSim now true none (fetchSim now true none s₀).2).1 =
          (fetchSim now true none s₀).1 ∧
      (fetchSim now true none (fetchSim now true none s₀).2).2 =
          (fetchSim now true none s₀).2) := by
  have hdedup : ∀ (now : Nat) (cf : Bool) (s : FetchSimState D E)
      (opts : Option FetchOpts) (p : Nat),
      s.state.fetchStatus ≠ .idle → s.promise = some p →
      ((opts.bind (·.cancelRefetch)).getD false = false ∨ s.state.dataUpdatedAt = 0) →
      fetchSim now cf opts s = (p, s) := by
    intro now cf s opts p hfs hp hopt
    have hcond : ¬ (s.state.dataUpdatedAt ≠ 0 ∧
        (opts.bind (·.cancelRefetch)).getD false = true) := by
      rcases hopt with h | h
      · rintro ⟨-, h'⟩
        rw [h] at h'
        exact Bool.false_ne_true h'
      · rintro ⟨h', -⟩
        exact h' h
    simp [fetchSim, hfs, hcond, hp]
  refine ⟨hdedup, fun now s₀ h₀ hp₀ => ?_⟩
  have hfirst : fetchSim now true none s₀ = startNewFetch now true none s₀ := by
    simp [fetchSim, h₀]
  have hstate : (startNewFetch now true none s₀).2.state.fetchStatus = .fetching := by
    simp only [startNewFetch, h₀, reduce, true_or, if_true, if_pos]
    split <;> rfl
  have hpromise : (startNewFetch now true none s₀).2.promise =
      some (startNewFetch now true none s₀).1 := by
    simp [startNewFetch]
  have hcount : (startNewFetch now true none s₀).2.fetchCount = s₀.fetchCount + 1 := by
    simp [startNewFetch]
  have hsecond := hdedup now true (startNewFetch now true none s₀).2 none
    (startNewFetch now true none s₀).1
    (by rw [hstate]; intro h; cases h) (by rw [hpromise]) (Or.inl rfl)
  rw [hfirst, hsecond]
  exact ⟨hcount, rfl, rfl⟩

/-- An entry mid-fetch with its promise published. -/
def exFetchingSim : FetchSimState Nat Nat :=
  { state := ⟨none, 0, none, 0, none, false, .pending, .fetching⟩
    promise := some 5
    revert := none
    fetchCount := 1
    nextPromiseId := 6 }

/-- A freshly created entry that never fetched. -/
def exIdleSim : FetchSimState Nat Nat :=
  { state := ⟨none, 0, none, 0, none, false, .pending, .idle⟩
    promise := none
    revert := none
    fetchCount := 0
    nextPromiseId := 0 }

theorem claim_C1_fetch_dedup_witness :
    (exFetchingSim.state.fetchStatus ≠ .idle ∧
      fetchSim 7 true none exFetchingSim = (5, exFetchingSim)) ∧
    (exIdleSim.state.fetchStatus = .idle ∧
      (fetchSim 7 true none (fetchSim 7 true none exIdleSim).2).2.fetchCount = 0 + 1) := by
  constructor
  · exact ⟨by decide, (claim_C1_fetch_dedup (D := Nat) (E := Nat)).1 7 true
      exFetchingSim none 5 (by decide) rfl (Or.inl rfl)⟩
  · exact ⟨rfl, ((claim_C1_fetch_dedup (D := Nat) (E := Nat)).2 7
      exIdleSim rfl rfl).1⟩

/-- The terminal status of a mutation outcome. -/
def terminalStatus {D E : Type} : Except E D → MutationStatus
  | .ok _ => .success
  | .error _ => .error

/-- Whether a mutation outcome succeeded. -/
def isOkE {D E : Type} : Except E D → Bool
  | .ok _ => true
  | .error _ => false

/-- C7: when `trigger` settles, the callbacks run in the fixed order registry
`onSuccess`/`onError`, instance `onSuccess`/`onError`, registry `onSettled`,
instance `onSettled`, awaited in sequence; all complete before the terminal
`success`/`error` dispatch, which itself precedes the settlement of the
promise returned by `trigger`; the promise settles with the fetch outcome. -/
theorem claim_C7_mutation_callback_order {D E : Type} (cbs : TriggerCallbacks)
    (restored : Bool) (outcome : Except E D) :
    (triggerTrace cbs restored outcome).1 =
      (if restored then [] else [MEvent.dispatched .mutating]) ++
        specCallbackOrder cbs (isOkE outcome) ++
        [MEvent.dispatched (terminalStatus outcome), MEvent.settled (isOkE outcome)] ∧
    (triggerTrace cbs restored outcome).2 = outcome := by
  obtain ⟨c₁, c₂, c₃, c₄, c₅, c₆⟩ := cbs
  cases outcome <;> cases restored <;> cases c₁ <;> cases c₂ <;> cases c₃ <;>
    cases c₄ <;> cases c₅ <;> cases c₆ <;>
    exact ⟨rfl, rfl⟩

/-! Hydration lemmas. -/

/-- The restored form of a dehydrated entry. -/
def toHydratedEntry {D E : Type} (q : DehydratedQuery D E) : String × CacheEntry D E :=
  (q.queryHash, ⟨q.key, forceIdle q.state⟩)

theorem lookupCache_append_of_none {D E : Type} {h : String} {a : Cache D E}
    (b : Cache D E) (ha : lookupCache h a = none) :
    lookupCache h (a ++ b) = lookupCache h b := by
  induction a with
  | nil => rfl
  | cons p rest ih =>
      obtain ⟨h', e'⟩ := p
      by_cases hh : h' = h
      · rw [lookupCache, if_pos hh] at ha
        cases ha
      · rw [List.cons_append, lookupCache, if_neg hh]
        rw [lookupCache, if_neg hh] at ha
        exact ih ha

theorem lookupCache_map_hydrated {D E : Type} (qs : List (DehydratedQuery D E))
    (q : DehydratedQuery D E) (hnd : (qs.map (·.queryHash)).Nodup) (hq : q ∈ qs) :
    lookupCache q.queryHash (qs.map toHydratedEntry) =
      some ⟨q.key, forceIdle q.state⟩ := by
  induction qs with
  | nil => cases hq
  | cons r rest ih =>
      rw [List.map_cons, List.nodup_cons] at hnd
      rcases List.mem_cons.mp hq with rfl | hq'
      · rw [List.map_cons, toHydratedEntry, lookupCache, if_pos rfl]
      · have hne : r.queryHash ≠ q.queryHash := fun h => by
          exact hnd.1 (h ▸ List.mem_map_of_mem (·.queryHash) hq')
        rw [List.map_cons, toHydratedEntry, lookupCache, if_neg hne]
        exact ih hnd.2 hq'

theorem hydrate_disjoint_append {D E : Type} (qs : List (DehydratedQuery D E)) :
    ∀ acc : Cache D E, (∀ q ∈ qs, lookupCache q.queryHash acc = none) →
    (qs.map (·.queryHash)).Nodup →
    hydrate acc qs = acc ++ qs.map toHydratedEntry := by
  induction qs with
  | nil => intro acc _ _; simp [hydrate]
  | cons q rest ih =>
      intro acc hdisj hnd
      rw [List.map_cons, List.nodup_cons] at hnd
      have hone : hydrateOne acc q = acc ++ [toHydratedEntry q] := by
        rw [hydrateOne, hdisj q (List.mem_cons_self q rest)]
        rfl
      have hstep : hydrate acc (q :: rest) = hydrate (acc ++ [toHydratedEntry q]) rest := by
        rw [hydrate, List.foldl_cons, hone]
        rfl
      rw [hstep, ih (acc ++ [toHydratedEntry q]) ?_ hnd.2, List.append_assoc]
      · rfl
      · intro q' hq'
        rw [lookupCache_append_of_none _ (hdisj q' (List.mem_cons_of_mem q hq'))]
        have hne : q.queryHash ≠ q'.queryHash := fun h =>
          hnd.1 (h ▸ List.mem_map_of_mem (·.queryHash) hq')
        rw [toHydratedEntry, lookupCache, if_neg hne]
        rfl

theorem mem_dehydrate {D E : Type} {cache : Cache D E} {h : String}
    {e : CacheEntry D E} (hmem : (h, e) ∈ cache)
    (hgen : isGeneratedKey e.key = false)
    (hsucc : defaultShouldDehydrateQuery e = true) :
    (⟨e.key, h, e.state⟩ : DehydratedQuery D E) ∈ dehydrate none cache := by
  refine List.mem_flatMap.mpr ⟨(h, e), hmem, ?_⟩
  simp [hgen, hsucc]

theorem dehydrate_none_eq {D E : Type} (cache : Cache D E) :
    dehydrate none cache = cache.flatMap fun p =>
      if !isGeneratedKey p.2.key && defaultShouldDehydrateQuery p.2 then
        [⟨p.2.key, p.1, p.2.state⟩] else [] := rfl

theorem dehydrate_hashes_sublist {D E : Type} (cache : Cache D E) :
    ((dehydrate none cache).map (·.queryHash)).Sublist (cache.map (·.1)) := by
  rw [dehydrate_none_eq]
  induction cache with
  | nil => exact List.Sublist.refl _
  | cons p rest ih =>
      rw [List.flatMap_cons, List.map_cons]
      by_cases hc : (!isGeneratedKey p.2.key && defaultShouldDehydrateQuery p.2) = true
      · rw [if_pos hc, List.singleton_append, List.map_cons]
        exact List.Sublist.cons₂ p.1 ih
      · rw [if_neg hc, List.nil_append]
        exact List.Sublist.cons p.1 ih

theorem lookupCache_updateCache_self {D E : Type} {h : String} {c : Cache D E}
    {live : CacheEntry D E} (hl : lookupCache h c = some live)
    (e : CacheEntry D E) : lookupCache h (updateCache h e c) = some e := by
  induction c with
  | nil => cases hl
  | cons p rest ih =>
      obtain ⟨h', e'⟩ := p
      by_cases hh : h' = h
      · rw [updateCache, if_pos hh, lookupCache, if_pos hh]
      · rw [lookupCache, if_neg hh] at hl
        rw [updateCache, if_neg hh, lookupCache, if_neg hh]
        exact ih hl

/-- The success-state entry of a cache entry whose key was generated
anonymously (`$q$…`). -/
def exSuccState : QueryInfoState Nat Nat :=
  ⟨some 7, 5, none, 0, none, false, .success, .fetching⟩

def exGenCache : Cache Nat Nat :=
  [("h1", ⟨"$q$1", exSuccState⟩)]

def exLiveEntry : CacheEntry Nat Nat :=
  ⟨"k", ⟨some 9, 5, none, 0, none, false, .success, .idle⟩⟩

def exLiveCache : Cache Nat Nat :=
  [("h2", exLiveEntry)]

def exDehydratedQuery : DehydratedQuery Nat Nat :=
  ⟨"k", "h2", exSuccState⟩

/-- C5, counterexample: (1) a cache entry in `success` state whose key is a
generated one is dropped by `dehydrate`, so after restoring into an empty
cache it is absent; (2) restoring an entry whose serialized `dataUpdatedAt`
equals the live entry's skips it even though no live entry with strictly
newer data exists. -/
theorem claim_C5_round_trip_counterexample :
    (exGenCache = [("h1", ⟨"$q$1", exSuccState⟩)] ∧
      exSuccState.status = .success ∧
      hydrate [] (dehydrate none exGenCache) = [] ∧
      lookupCache "h1" (hydrate [] (dehydrate none exGenCache)) = none) ∧
    (hydrateOne exLiveCache exDehydratedQuery = exLiveCache ∧
      exDehydratedQuery.state.dataUpdatedAt = 5 ∧
      exLiveEntry.state.dataUpdatedAt = 5 ∧
      ¬ exDehydratedQuery.state.dataUpdatedAt < exLiveEntry.state.dataUpdatedAt) := by
  exact ⟨⟨rfl, rfl, rfl, rfl⟩, by decide, rfl, rfl, by decide⟩

/-- C5, amended: restoring a serialized cache into an empty one restores
every `success`-state resource **whose key is not a generated key** with
identical cached state, its `fetchStatus` forced to `idle`; and a restored
entry is skipped exactly when a live entry whose `dataUpdatedAt` is **at
least as new** as the serialized one exists. -/
theorem claim_C5_round_trip_amended {D E : Type} :
    (∀ cache : Cache D E, (cache.map (·.1)).Nodup →
      ∀ h e, (h, e) ∈ cache → e.state.status = .success →
        isGeneratedKey e.key = false →
        lookupCache h (hydrate [] (dehydrate none cache)) =
          some ⟨e.key, forceIdle e.state⟩) ∧
    (∀ (c : Cache D E) (q : DehydratedQuery D E),
      hydrateOne c q = c ↔
        ∃ live, lookupCache q.queryHash c = some live ∧
          q.state.dataUpdatedAt ≤ live.state.dataUpdatedAt) := by
  constructor
  · intro cache hnd h e hmem hsucc hgen
    have hnd' : ((dehydrate none cache).map (·.queryHash)).Nodup :=
      (dehydrate_hashes_sublist cache).nodup hnd
    have hq : (⟨e.key, h, e.state⟩ : DehydratedQuery D E) ∈ dehydrate none cache :=
      mem_dehydrate hmem hgen (by simp [defaultShouldDehydrateQuery, hsucc])
    rw [hydrate_disjoint_append _ [] (fun _ _ => rfl) hnd', List.nil_append]
    exact lookupCache_map_hydrated _ _ hnd' hq
  · intro c q
    have hnone : lookupCache q.queryHash c = none →
        hydrateOne c q = c ++ [(q.queryHash, ⟨q.key, forceIdle q.state⟩)] := by
      intro h
      rw [hydrateOne, h]
    have hsome : ∀ live, lookupCache q.queryHash c = some live →
        hydrateOne c q =
          if live.state.dataUpdatedAt < q.state.dataUpdatedAt then
            updateCache q.queryHash { live with state := forceIdle q.state } c
          else c := by
      intro live h
      rw [hydrateOne, h]
      rfl
    cases hl : lookupCache q.queryHash c with
    | none =>
        rw [hnone hl]
        constructor
        · intro h
          have := congrArg List.length h
          simp at this
        · rintro ⟨live, hlive, -⟩
          cases hlive
    | some live =>
        rw [hsome live hl]
        by_cases hlt : live.state.dataUpdatedAt < q.state.dataUpdatedAt
        · rw [if_pos hlt]
          constructor
          · intro heq
            have h1 := lookupCache_updateCache_self hl
              { live with state := forceIdle q.state }
            rw [heq, hl] at h1
            have h2 := congrArg (fun en : CacheEntry D E => en.state.dataUpdatedAt)
              (Option.some_injective _ h1)
            simp only [forceIdle_dataUpdatedAt] at h2
            exact absurd hlt (by omega)
          · rintro ⟨live', hlive', hle⟩
            cases hlive'
            exact absurd hlt (not_lt.mpr hle)
        · rw [if_neg hlt]
          exact ⟨fun _ => ⟨live, rfl, not_lt.mp hlt⟩, fun _ => rfl⟩

theorem claim_C5_round_trip_amended_witness :
    (lookupCache "h2"
        (hydrate [] (dehydrate none [("h2", (⟨"k", exSuccState⟩ : CacheEntry Nat Nat))])) =
      some ⟨"k", forceIdle exSuccState⟩) ∧
    (hydrateOne exLiveCache exDehydratedQuery = exLiveCache ↔
      ∃ live, lookupCache "h2" exLiveCache = some live ∧
        exDehydratedQuery.state.dataUpdatedAt ≤ live.state.dataUpdatedAt) :=
  ⟨(claim_C5_round_trip_amended (D := Nat) (E := Nat)).1
      [("h2", ⟨"k", exSuccState⟩)] (by decide) "h2" ⟨"k", exSuccState⟩
      (List.mem_singleton.mpr rfl) rfl (by decide),
    (claim_C5_round_trip_amended (D := Nat) (E := Nat)).2 exLiveCache exDehydratedQuery⟩

/-! The `dataUpdatedAt` invariant (C9). -/

/-- Timestamp sanity for an event: a successful cache write must carry a
positive time — `Date.now()` is positive on a real clock, but `setData`'s
explicit `updatedAt` is taken verbatim. -/
def goodEvent {D E : Type} : QEvent D E → Prop
  | .fetchSuccess now _ => 0 < now
  | .setData now _ u => 0 < now ∧ ∀ t, u = some t → 0 < t
  | _ => True

/-- The invariant on the snapshot a revert would restore. -/
def revertInv {D E : Type} : Option (QueryInfoState D E × Bool) → Prop
  | none => True
  | some p => (p.1.dataUpdatedAt = 0 ↔ p.2 = false)

/-- `dataUpdatedAt` is zero exactly when no (surviving) successful cache
write happened, in the live state and in the pending revert snapshot. -/
def ghostInv {D E : Type} (g : GhostState D E) : Prop :=
  (g.st.dataUpdatedAt = 0 ↔ g.everCached = false) ∧ revertInv g.revert

theorem reduce_fetch_dataUpdatedAt {D E : Type} (now : Nat) (cf : Bool)
    (rv : Option (QueryInfoState D E)) (s : QueryInfoState D E) (m : Option Nat) :
    (reduce now cf rv s (.fetch m)).dataUpdatedAt = s.dataUpdatedAt := by
  simp only [reduce]
  split <;> rfl

theorem reduce_success_dataUpdatedAt {D E : Type} (now : Nat) (cf : Bool)
    (rv : Option (QueryInfoState D E)) (s : QueryInfoState D E) (d : Option D)
    (u : Option Nat) (manual : Bool) :
    (reduce now cf rv s (.success d u manual)).dataUpdatedAt = u.getD now := by
  cases manual <;> rfl

theorem ghostStep_inv {D E : Type} (g : GhostState D E) (ev : QEvent D E)
    (hg : ghostInv g) (hev : goodEvent ev) : ghostInv (ghostStep g ev) := by
  obtain ⟨gst, gec, grev⟩ := g
  obtain ⟨h₁, h₂⟩ := hg
  cases ev with
  | fetch now meta cf =>
      refine ⟨?_, h₁⟩
      simp only [ghostStep]
      split
      · rw [reduce_fetch_dataUpdatedAt]
        exact h₁
      · exact h₁
  | fetchSuccess now data =>
      have hpos : (0 : Nat) < now := hev
      refine ⟨?_, h₂⟩
      simp only [ghostStep]
      rw [reduce_success_dataUpdatedAt]
      simp only [Option.getD_none]
      exact ⟨fun h => absurd h (by omega), fun h => by cases h⟩
  | setData now d u =>
      obtain ⟨hnow, hu⟩ := hev
      have hpos : 0 < u.getD now := by
        cases u with
        | none => exact hnow
        | some t => exact hu t rfl
      refine ⟨?_, h₂⟩
      simp only [ghostStep]
      rw [reduce_success_dataUpdatedAt]
      exact ⟨fun h => absurd h (by omega), fun h => by cases h⟩
  | errorEv now e =>
      cases e with
      | err x => cases grev with
          | none => exact ⟨h₁, h₂⟩
          | some p => exact ⟨h₁, h₂⟩
      | cancelled r s₀ =>
          cases s₀ with
          | true => cases r <;> cases grev <;> exact ⟨h₁, h₂⟩
          | false =>
              cases r with
              | false => cases grev with
                  | none => exact ⟨h₁, h₂⟩
                  | some p => exact ⟨h₁, h₂⟩
              | true =>
                  cases grev with
                  | none => exact ⟨h₁, h₂⟩
                  | some p => exact ⟨h₂, h₂⟩
  | invalidate now =>
      refine ⟨?_, h₂⟩
      simp only [ghostStep]
      split <;> exact h₁
  | pause now => exact ⟨h₁, h₂⟩
  | continueEv now => exact ⟨h₁, h₂⟩

theorem foldl_ghostStep_inv {D E : Type} (evs : List (QEvent D E)) :
    ∀ g : GhostState D E, ghostInv g → (∀ ev ∈ evs, goodEvent ev) →
    ghostInv (evs.foldl ghostStep g) := by
  induction evs with
  | nil => exact fun g hg _ => hg
  | cons ev rest ih =>
      intro g hg hevs
      exact ih (ghostStep g ev)
        (ghostStep_inv g ev hg (hevs ev (List.mem_cons_self ev rest)))
        (fun e he => hevs e (List.mem_cons_of_mem ev he))

def exC9Events : List (QEvent Nat Nat) := [.setData 100 42 (some 0)]

/-- C9, counterexample: from the default initial state (no initial data), a
single `setData` carrying an explicit `updatedAt: 0` caches data — the state
holds `data = 42` in `success` status — while `dataUpdatedAt` is `0`, so
`dataUpdatedAt == 0` does not imply that data was never successfully
cached. -/
theorem claim_C9_invariant_counterexample :
    (ghostRun 1 ({} : InitialDataOptions Nat) exC9Events).everCached = true ∧
    (ghostRun 1 ({} : InitialDataOptions Nat) exC9Events).st.data = some 42 ∧
    (ghostRun 1 ({} : InitialDataOptions Nat) exC9Events).st.status = .success ∧
    (ghostRun 1 ({} : InitialDataOptions Nat) exC9Events).st.dataUpdatedAt = 0 := by
  exact ⟨rfl, rfl, rfl, rfl⟩

/-- C9, amended: over every action sequence of the claim's shape the
equivalence `dataUpdatedAt == 0` ↔ "data was never successfully cached
(by a surviving write)" holds, **provided** the clock is positive, a
configured `initialDataUpdatedAt` is positive, and every explicit `setData`
`updatedAt` is positive — the code lets a caller-supplied `updatedAt: 0`
(or a zero initial timestamp) break the invariant. -/
theorem getDefaultState_inv {D E : Type} (now₀ : Nat) (opts : InitialDataOptions D)
    (h₀ : 0 < now₀) (hinit : ∀ t, opts.initialDataUpdatedAt = some t → 0 < t) :
    ((getDefaultState now₀ opts : QueryInfoState D E).dataUpdatedAt = 0 ↔
      opts.initialData.isSome = false) := by
  cases hd : opts.initialData with
  | none => simp [getDefaultState, hd]
  | some d =>
      have hpos : 0 < opts.initialDataUpdatedAt.getD now₀ := by
        cases hu : opts.initialDataUpdatedAt with
        | none => exact h₀
        | some t => exact hinit t hu
      simp only [getDefaultState, hd, Option.isSome_some]
      simp only [if_true]
      constructor
      · intro h
        omega
      · intro h
        cases h

theorem claim_C9_dataUpdatedAt_invariant_amended {D E : Type} (now₀ : Nat)
    (opts : InitialDataOptions D) (evs : List (QEvent D E)) (h₀ : 0 < now₀)
    (hinit : ∀ t, opts.initialDataUpdatedAt = some t → 0 < t)
    (hevs : ∀ ev ∈ evs, goodEvent ev) :
    (ghostRun now₀ opts evs).st.dataUpdatedAt = 0 ↔
      (ghostRun now₀ opts evs).everCached = false := by
  have hini : ghostInv
      (⟨getDefaultState now₀ opts, opts.initialData.isSome, none⟩ : GhostState D E) :=
    ⟨getDefaultState_inv now₀ opts h₀ hinit, trivial⟩
  exact (foldl_ghostStep_inv evs _ hini hevs).1

theorem claim_C9_dataUpdatedAt_invariant_amended_witness :
    (ghostRun 3 ({} : InitialDataOptions Nat)
        [QEvent.fetch 3 none true, QEvent.fetchSuccess 4 (some 8),
          QEvent.invalidate (E := Nat) 5]).st.dataUpdatedAt = 0 ↔
      (ghostRun 3 ({} : InitialDataOptions Nat)
        [QEvent.fetch 3 none true, QEvent.fetchSuccess 4 (some 8),
          QEvent.invalidate (E := Nat) 5]).everCached = false :=
  claim_C9_dataUpdatedAt_invariant_amended 3 {}
    [QEvent.fetch 3 none true, QEvent.fetchSuccess 4 (some 8), QEvent.invalidate 5]
    (by decide) (fun t h => by cases h)
    (by
      intro ev hev
      simp only [List.mem_cons, List.not_mem_nil, or_false] at hev
      rcases hev with rfl | rfl | rfl
      · exact trivial
      · exact (by decide : (0 : Nat) < 4)
      · exact trivial)

/-! Infinite-query lemmas (C8). -/

theorem addToEnd_length_pos {α : Type} (l : List α) (x : α) (m : Nat) :
    0 < (addToEnd l x m).length := by
  simp only [addToEnd]
  split
  · next h =>
      rw [List.length_drop, List.length_append, List.length_singleton]
      rw [List.length_append, List.length_singleton] at h
      omega
  · rw [List.length_append, List.length_singleton]
    omega

theorem addToStart_length_pos {α : Type} (l : List α) (x : α) (m : Nat) :
    0 < (addToStart l x m).length := by
  simp only [addToStart]
  split
  · next h =>
      rw [List.length_dropLast, List.length_cons]
      rw [List.length_cons] at h
      omega
  · rw [List.length_cons]
    omega

theorem fetchPage_pages_pos {D : Type} (mp : Nat) (fetcher : Option Int → D)
    (prev : Bool) (dc : InfiniteData D × Nat) (param : Option Int) :
    0 < (fetchPage mp fetcher prev dc param).1.pages.length := by
  obtain ⟨data, count⟩ := dc
  simp only [fetchPage]
  split
  · next h =>
      exact List.length_pos.mpr fun hnil => h.2 (by rw [hnil]; rfl)
  · split
    · exact addToStart_length_pos _ _ _
    · exact addToEnd_length_pos _ _ _

theorem fetchPage_none_stuck {D : Type} (mp : Nat) (fetcher : Option Int → D)
    (dc : InfiniteData D × Nat) (hpos : 0 < dc.1.pages.length) :
    fetchPage mp fetcher false dc none = dc := by
  obtain ⟨data, count⟩ := dc
  simp only [fetchPage]
  rw [if_pos]
  exact ⟨rfl, fun h => by
    rw [List.isEmpty_iff.mp h] at hpos
    cases hpos⟩

theorem refetchRounds_stuck {D : Type} (options : InfiniteOptions D)
    (fetcher : Option Int → D) (k : Nat) (dc : InfiniteData D × Nat)
    (hnp : getNextPageParamTop options dc.1 = none) (hpos : 0 < dc.1.pages.length) :
    refetchRounds options fetcher k dc = dc := by
  induction k with
  | zero => rfl
  | succ k ih =>
      simp only [refetchRounds]
      rw [hnp, fetchPage_none_stuck _ _ _ hpos]
      exact ih

theorem refetchRounds_eq_spec {D : Type} (options : InfiniteOptions D)
    (fetcher : Option Int → D) :
    ∀ (k : Nat) (dc : InfiniteData D × Nat), 0 < dc.1.pages.length →
      refetchRounds options fetcher k dc = specRefetchRounds options fetcher k dc := by
  intro k
  induction k with
  | zero => intro dc _; rfl
  | succ k ih =>
      intro dc hpos
      simp only [refetchRounds, specRefetchRounds]
      cases hnp : getNextPageParamTop options dc.1 with
      | none =>
          rw [fetchPage_none_stuck _ _ _ hpos]
          exact refetchRounds_stuck options fetcher k dc hnp hpos
      | some p =>
          exact ih _ (fetchPage_pages_pos _ _ _ _ _)

theorem fetchPage_count_inv {D : Type} (fetcher : Option Int → D)
    (dc : InfiniteData D × Nat) (param : Option Int)
    (h : dc.1.pages.length = dc.2) :
    (fetchPage 0 fetcher false dc param).1.pages.length =
      (fetchPage 0 fetcher false dc param).2 := by
  obtain ⟨data, count⟩ := dc
  simp only at h
  simp only [fetchPage]
  split
  · exact h
  · rw [if_neg Bool.false_ne_true]
    simp only [addToEnd, ne_eq, not_true_eq_false, false_and, if_false,
      List.length_append, List.length_singleton]
    omega

theorem refetchRounds_count_inv {D : Type} (options : InfiniteOptions D)
    (fetcher : Option Int → D) (hmp : options.maxPages = 0) :
    ∀ (k : Nat) (dc : InfiniteData D × Nat), dc.1.pages.length = dc.2 →
      (refetchRounds options fetcher k dc).1.pages.length =
        (refetchRounds options fetcher k dc).2 := by
  intro k
  induction k with
  | zero => intro dc h; exact h
  | succ k ih =>
      intro dc h
      simp only [refetchRounds]
      refine ih _ ?_
      rw [hmp]
      exact fetchPage_count_inv fetcher dc _ h

/-- C8: with no explicit direction, the assembled fetch function performs the
spec's forward refetch — first page at `oldPageParams[0] ?? initialPageParam`,
each further page parameter recomputed by `getNextPageParam`, stopping at the
requested page bound or at the first nullish parameter, the result holding
exactly the pages fetched (their count equals the fetcher invocations when
`maxPages` is unset); and `hasNextPage` is `false` for absent data and
otherwise exactly the definedness of `getNextPageParam` on the current data,
computed without any fetch function in scope. -/
theorem claim_C8_infinite_refetch {D : Type} (options : InfiniteOptions D)
    (fetcher : Option Int → D) :
    (∀ (pagesRequested : Option Nat) (oldData : Option (InfiniteData D)),
      onFetchFn options fetcher pagesRequested none oldData =
        specRefetch options fetcher pagesRequested oldData) ∧
    hasNextPage options none = false ∧
    (∀ d : InfiniteData D,
      hasNextPage options (some d) = (getNextPageParamTop options d).isSome) ∧
    (∀ (pagesRequested : Option Nat) (oldData : Option (InfiniteData D)),
      options.maxPages = 0 →
      (onFetchFn options fetcher pagesRequested none oldData).1.pages.length =
        (onFetchFn options fetcher pagesRequested none oldData).2) := by
  have hmain : ∀ (pagesRequested : Option Nat) (oldData : Option (InfiniteData D)),
      onFetchFn options fetcher pagesRequested none oldData =
        specRefetch options fetcher pagesRequested oldData := by
    intro pagesRequested oldData
    exact refetchRounds_eq_spec options fetcher _ _ (fetchPage_pages_pos _ _ _ _ _)
  refine ⟨hmain, rfl, fun d => rfl, fun pagesRequested oldData hmp => ?_⟩
  exact refetchRounds_count_inv options fetcher hmp _ _
    (by
      show (fetchPage options.maxPages fetcher false _ _).1.pages.length =
        (fetchPage options.maxPages fetcher false _ _).2
      rw [hmp]
      exact fetchPage_count_inv fetcher ({ pages := [], pageParams := [] }, 0) _ rfl)

/-- An options record whose `getNextPageParam` immediately stops. -/
def exInfOptions : InfiniteOptions Nat :=
  { getNextPageParam := fun _ _ _ _ => none
    initialPageParam := 0
    maxPages := 0 }

/-! Selector memoization lemmas (C6). -/

/-- The result a derivation emits once the selector has produced `v`. -/
def memoResult (v : Nat) (se : Option Nat) (st : QueryStatus) (fs : FetchStatus)
    (isStaleB : Bool) : ResultM :=
  { data := some v
    error := se
    isLoading := st = .pending
    isFetching := fs = .fetching
    isPlaceholderData := false
    isStale := isStaleB }

/-- The closure state after a first successful derivation. -/
def steadyObsSt (d v : Nat) (se : Option Nat) (st : QueryStatus) (fs : FetchStatus)
    (selId : Nat) (ph : Option Nat) (isStaleB : Bool) : ObsSt :=
  { currentResult := some (memoResult v se st fs isStaleB)
    currentResultStateData := some (some d)
    currentResultSelect := some (some selId)
    currentResultPlaceholder := some ph
    selectResult := some v
    selectError := none }

theorem updateResultM_first (selEnv : Nat → Nat → Except Nat Nat) (d v : Nat)
    (se : Option Nat) (st : QueryStatus) (fs : FetchStatus) (selId : Nat)
    (ph : Option Nat) (isStaleB : Bool) (hok : selEnv selId d = .ok v) :
    updateResultM selEnv (some d) se st fs (some selId) ph isStaleB freshObsSt =
      (steadyObsSt d v se st fs selId ph isStaleB, 1) := by
  simp [updateResultM, createResultM, selectStep, placeholderStep, finalizeResult,
    freshObsSt, hok, steadyObsSt, memoResult]

theorem updateResultM_steady (selEnv : Nat → Nat → Except Nat Nat) (d v : Nat)
    (se : Option Nat) (st : QueryStatus) (fs : FetchStatus) (selId : Nat)
    (ph : Option Nat) (isStaleB : Bool) :
    updateResultM selEnv (some d) se st fs (some selId) ph isStaleB
        (steadyObsSt d v se st fs selId ph isStaleB) =
      (steadyObsSt d v se st fs selId ph isStaleB, 0) := by
  simp [updateResultM, createResultM, selectStep, placeholderStep, finalizeResult,
    steadyObsSt, memoResult]

theorem deriveRepeatedly_steady (selEnv : Nat → Nat → Except Nat Nat) (d v : Nat)
    (se : Option Nat) (st : QueryStatus) (fs : FetchStatus) (selId : Nat)
    (ph : Option Nat) (isStaleB : Bool) (k : Nat) :
    deriveRepeatedly selEnv (some d) se st fs (some selId) ph isStaleB k
        (steadyObsSt d v se st fs selId ph isStaleB) =
      (steadyObsSt d v se st fs selId ph isStaleB, 0) := by
  induction k with
  | zero => rfl
  | succ k ih =>
      simp only [deriveRepeatedly,
        updateResultM_steady selEnv d v se st fs selId ph isStaleB, ih]

/-- C6: with a configured selector and defined data, (1) across `k ≥ 1`
repeated derivations with the same data reference, selector reference and
options, a succeeding selector runs exactly once in total; (2) a derivation
whose data and selector references both match the previous derivation's
never invokes the selector (placeholder data not configured); (3) when the
selector throws on a derivation that must recompute, the emitted result
carries the exception as its error, is not loading (internal status
`'error'`), and its data is the last successfully selected value. -/
theorem claim_C6_selector_memoization (selEnv : Nat → Nat → Except Nat Nat)
    (d : Nat) (se : Option Nat) (st : QueryStatus) (fs : FetchStatus)
    (selId : Nat) (isStaleB : Bool) :
    (∀ (v : Nat) (ph : Option Nat) (k : Nat), selEnv selId d = .ok v → 0 < k →
      (deriveRepeatedly selEnv (some d) se st fs (some selId) ph isStaleB k
        freshObsSt).2 = 1) ∧
    (∀ s : ObsSt, s.currentResult.isSome = true →
      s.currentResultStateData = some (some d) →
      s.currentResultSelect = some (some selId) →
      (updateResultM selEnv (some d) se st fs (some selId) none isStaleB s).2 = 0) ∧
    (∀ (e : Nat) (s : ObsSt), selEnv selId d = .error e →
      ¬(s.currentResult.isSome = true ∧ s.currentResultStateData = some (some d) ∧
          s.currentResultSelect = some (some selId)) →
      (createResultM selEnv (some d) se st fs (some selId) none isStaleB s).1.error =
          some e ∧
      (createResultM selEnv (some d) se st fs (some selId) none isStaleB s).1.data =
          s.selectResult ∧
      (createResultM selEnv (some d) se st fs (some selId) none isStaleB
        s).1.isLoading = false) := by
  refine ⟨fun v ph k hok hk => ?_, fun s h₁ h₂ h₃ => ?_, fun e s herr hmiss => ?_⟩
  · obtain ⟨k, rfl⟩ : ∃ k', k = k' + 1 := ⟨k - 1, by omega⟩
    simp only [deriveRepeatedly, updateResultM_first selEnv d v se st fs selId ph
      isStaleB hok, deriveRepeatedly_steady selEnv d v se st fs selId ph isStaleB]
  · simp only [updateResultM, createResultM, selectStep, placeholderStep, h₁, h₂, h₃]
    simp
    split <;> rfl
  · simp [createResultM, selectStep, placeholderStep, finalizeResult, herr, hmiss]

/-- A selector environment whose selectors succeed, mapping data `x` to
`x + 1`. -/
def exSelEnvOk : Nat → Nat → Except Nat Nat := fun _ x => .ok (x + 1)

/-- A selector environment whose selectors always throw error `7`. -/
def exSelEnvErr : Nat → Nat → Except Nat Nat := fun _ _ => .error 7

theorem claim_C6_selector_memoization_witness :
    (deriveRepeatedly exSelEnvOk (some 2) none .success .idle (some 0) none false 3
      freshObsSt).2 = 1 ∧
    (updateResultM exSelEnvOk (some 2) none .success .idle (some 0) none false
      (steadyObsSt 2 3 none .success .idle 0 none false)).2 = 0 ∧
    (createResultM exSelEnvErr (some 2) none .success .idle (some 0) none false
      freshObsSt).1.error = some 7 :=
  ⟨(claim_C6_selector_memoization exSelEnvOk 2 none .success .idle 0 false).1
      3 none 3 rfl (by decide),
    (claim_C6_selector_memoization exSelEnvOk 2 none .success .idle 0 false).2.1
      (steadyObsSt 2 3 none .success .idle 0 none false) rfl rfl rfl,
    ((claim_C6_selector_memoization exSelEnvErr 2 none .success .idle 0 false).2.2
      7 freshObsSt rfl (by decide)).1⟩


theorem claim_C8_infinite_refetch_witness :
    onFetchFn exInfOptions (fun _ => 0) (some 5) none none =
      specRefetch exInfOptions (fun _ => 0) (some 5) none ∧
    (onFetchFn exInfOptions (fun _ => 0) (some 5) none none).1.pages.length =
      (onFetchFn exInfOptions (fun _ => 0) (some 5) none none).2 :=
  ⟨(claim_C8_infinite_refetch exInfOptions (fun _ => 0)).1 (some 5) none,
    (claim_C8_infinite_refetch exInfOptions (fun _ => 0)).2.2.2 (some 5) none rfl⟩

/-! Key-hashing lemmas (C4). -/

theorem lookupKey_mem : ∀ {l : List (String × JVal)} {k : String} {v : JVal},
    lookupKey k l = some v → (k, v) ∈ l := by
  intro l
  induction l with
  | nil => intro k v h; cases h
  | cons p rest ih =>
      intro k v h
      obtain ⟨k', v'⟩ := p
      by_cases hk : k' = k
      · rw [lookupKey, if_pos hk] at h
        cases h
        subst hk
        exact List.mem_cons_self _ _
      · rw [lookupKey, if_neg hk] at h
        exact List.mem_cons_of_mem _ (ih h)

theorem lookupKey_eq_of_mem : ∀ {l : List (String × JVal)} {k : String} {v : JVal},
    (keysOf l).Nodup → (k, v) ∈ l → lookupKey k l = some v := by
  intro l
  induction l with
  | nil => intro k v _ hm; cases hm
  | cons p rest ih =>
      intro k v hnd hm
      obtain ⟨k', v'⟩ := p
      rw [keysOf, List.map_cons, List.nodup_cons] at hnd
      rcases List.mem_cons.mp hm with heq | hmem
      · cases heq
        rw [lookupKey, if_pos rfl]
      · have hne : k' ≠ k := fun hkk => by
          subst hkk
          exact hnd.1 (List.mem_map_of_mem (·.1) hmem)
        rw [lookupKey, if_neg hne]
        exact ih hnd.2 hmem

theorem mem_keysOf_of_lookupKey {l : List (String × JVal)} {k : String} {v : JVal}
    (h : lookupKey k l = some v) : k ∈ keysOf l :=
  List.mem_map_of_mem (·.1) (lookupKey_mem h)

theorem lookupKey_isSome_of_mem : ∀ {l : List (String × JVal)} {k : String}
    {v : JVal}, (k, v) ∈ l → ∃ w, lookupKey k l = some w := by
  intro l
  induction l with
  | nil => intro k v hm; cases hm
  | cons p rest ih =>
      intro k v hm
      obtain ⟨k', v'⟩ := p
      by_cases hk : k' = k
      · exact ⟨v', by rw [lookupKey, if_pos hk]⟩
      · rcases List.mem_cons.mp hm with heq | hmem
        · cases heq
          exact absurd rfl hk
        · rcases ih hmem with ⟨w, hw⟩
          exact ⟨w, by rw [lookupKey, if_neg hk]; exact hw⟩

theorem lookupKey_isSome_of_mem_keys {l : List (String × JVal)} {k : String}
    (h : k ∈ keysOf l) : ∃ v, lookupKey k l = some v := by
  rcases List.mem_map.mp h with ⟨p, hp, hpk⟩
  obtain ⟨k', v'⟩ := p
  cases hpk
  exact lookupKey_isSome_of_mem hp

theorem reordFields_lookup : ∀ (xs ys : List (String × JVal)),
    reordFields xs ys = true → ∀ k v, (k, v) ∈ xs →
      ∃ w, lookupKey k ys = some w ∧ reordEq v w = true := by
  intro xs
  induction xs with
  | nil => intro ys _ k v hm; cases hm
  | cons p xs ih =>
      intro ys h k v hm
      obtain ⟨k₀, v₀⟩ := p
      have h' : ((match lookupKey k₀ ys with
          | some w => reordEq v₀ w
          | none => false) && reordFields xs ys) = true := h
      rw [Bool.and_eq_true] at h'
      obtain ⟨h₁, h₂⟩ := h'
      rcases List.mem_cons.mp hm with heq | hmem
      · cases heq
        cases hl : lookupKey k ys with
        | none => rw [hl] at h₁; exact Bool.noConfusion h₁
        | some w =>
            rw [hl] at h₁
            exact ⟨w, rfl, h₁⟩
      · exact ih ys h₂ k v hmem

theorem deepSortFields_eq_map : ∀ l : List (String × JVal),
    deepSortFields l = l.map fun p => (p.1, deepSort p.2) := by
  intro l
  induction l with
  | nil => rfl
  | cons p rest ih =>
      obtain ⟨k, v⟩ := p
      rw [deepSortFields, ih]
      rfl

theorem keysOf_eq_map (l : List (String × JVal)) :
    keysOf l = l.map Prod.fst := rfl

theorem keysOf_map_deepSort (l : List (String × JVal)) :
    keysOf (l.map fun p => (p.1, deepSort p.2)) = keysOf l := by
  simp only [keysOf, List.map_map]
  rfl

/-- Strict ordering of pairs by their key. -/
def keyLT (p q : String × JVal) : Prop := p.1 < q.1

instance : IsAntisymm (String × JVal) keyLT :=
  ⟨fun _ _ h h' => absurd (lt_trans h h') (lt_irrefl _)⟩

theorem sorted_keyLT {l : List (String × JVal)} (h : List.Sorted keyLE l)
    (hnd : (keysOf l).Nodup) : List.Sorted keyLT l := by
  have hne : List.Pairwise (fun p q : String × JVal => p.1 ≠ q.1) l :=
    (List.pairwise_map).mp hnd
  exact (h.and hne).imp fun hpq => lt_of_le_of_ne hpq.1 hpq.2

theorem insertionSort_congr_perm (l₁ l₂ : List (String × JVal)) (hperm : l₁.Perm l₂)
    (hn₁ : (keysOf l₁).Nodup) :
    List.insertionSort keyLE l₁ = List.insertionSort keyLE l₂ := by
  rw [keysOf_eq_map] at hn₁
  have hn₂ : (l₂.map Prod.fst).Nodup := (hperm.map Prod.fst).nodup hn₁
  have hnds₁ : (keysOf (List.insertionSort keyLE l₁)).Nodup := by
    rw [keysOf_eq_map]
    exact (((List.perm_insertionSort keyLE l₁).symm).map Prod.fst).nodup hn₁
  have hnds₂ : (keysOf (List.insertionSort keyLE l₂)).Nodup := by
    rw [keysOf_eq_map]
    exact (((List.perm_insertionSort keyLE l₂).symm).map Prod.fst).nodup hn₂
  exact List.eq_of_perm_of_sorted (r := keyLT)
    ((List.perm_insertionSort keyLE l₁).trans
      (hperm.trans (List.perm_insertionSort keyLE l₂).symm))
    (sorted_keyLT (List.sorted_insertionSort keyLE l₁) hnds₁)
    (sorted_keyLT (List.sorted_insertionSort keyLE l₂) hnds₂)

theorem reordList_deepSortList_aux : ∀ (xs ys : List JVal),
    (∀ x ∈ xs, ∀ y, reordEq x y = true → deepSort x = deepSort y) →
    reordList xs ys = true → deepSortList xs = deepSortList ys := by
  intro xs
  induction xs with
  | nil =>
      intro ys _ h
      cases ys with
      | nil => rfl
      | cons y ys => exact Bool.noConfusion h
  | cons x xs ih =>
      intro ys IH h
      cases ys with
      | nil => exact Bool.noConfusion h
      | cons y ys =>
          have h' : (reordEq x y && reordList xs ys) = true := h
          rw [Bool.and_eq_true] at h'
          obtain ⟨h₁, h₂⟩ := h'
          show deepSort x :: deepSortList xs = deepSort y :: deepSortList ys
          rw [IH x (List.mem_cons_self _ _) y h₁,
            ih ys (fun z hz => IH z (List.mem_cons_of_mem _ hz)) h₂]

theorem reordFields_sorted_aux (xs ys : List (String × JVal))
    (IH : ∀ p ∈ xs, ∀ y, reordEq p.2 y = true → deepSort p.2 = deepSort y)
    (hnx : (keysOf xs).Nodup) (hny : (keysOf ys).Nodup)
    (hlen : xs.length = ys.length) (hrf : reordFields xs ys = true) :
    List.insertionSort keyLE (deepSortFields xs) =
      List.insertionSort keyLE (deepSortFields ys) := by
  have hlook := reordFields_lookup xs ys hrf
  have hsub : keysOf xs ⊆ keysOf ys := by
    intro k hk
    rcases List.mem_map.mp hk with ⟨p, hp, hpk⟩
    obtain ⟨k₀, v⟩ := p
    cases hpk
    rcases hlook _ _ hp with ⟨w, hw, -⟩
    exact mem_keysOf_of_lookupKey hw
  have hkeys : (keysOf xs).Perm (keysOf ys) := by
    refine (List.subperm_of_subset hnx hsub).perm_of_length_le ?_
    simp only [keysOf, List.length_map]
    omega
  have hiff : ∀ p, p ∈ xs.map (fun p => (p.1, deepSort p.2)) ↔
      p ∈ ys.map (fun p => (p.1, deepSort p.2)) := by
    intro p
    constructor
    · intro hp
      rcases List.mem_map.mp hp with ⟨q, hq, rfl⟩
      obtain ⟨k, v⟩ := q
      rcases hlook k v hq with ⟨w, hw, hvw⟩
      have hds := IH (k, v) hq w hvw
      exact List.mem_map.mpr ⟨(k, w), lookupKey_mem hw,
        congrArg (fun z => (k, z)) hds.symm⟩
    · intro hp
      rcases List.mem_map.mp hp with ⟨q, hq, rfl⟩
      obtain ⟨k, w⟩ := q
      have hkx : k ∈ keysOf xs :=
        hkeys.mem_iff.mpr (List.mem_map_of_mem (·.1) hq)
      rcases lookupKey_isSome_of_mem_keys hkx with ⟨v, hv⟩
      have hvx : (k, v) ∈ xs := lookupKey_mem hv
      rcases hlook k v hvx with ⟨w', hw', hvw'⟩
      rw [lookupKey_eq_of_mem hny hq] at hw'
      injection hw' with hww
      subst hww
      have hds := IH (k, v) hvx w hvw'
      exact List.mem_map.mpr ⟨(k, v), hvx, congrArg (fun z => (k, z)) hds⟩
  have hndx : (xs.map fun p => (p.1, deepSort p.2)).Nodup := by
    refine List.Nodup.of_map (·.1) ?_
    show (keysOf (xs.map fun p => (p.1, deepSort p.2))).Nodup
    rw [keysOf_map_deepSort]
    exact hnx
  have hndy : (ys.map fun p => (p.1, deepSort p.2)).Nodup := by
    refine List.Nodup.of_map (·.1) ?_
    show (keysOf (ys.map fun p => (p.1, deepSort p.2))).Nodup
    rw [keysOf_map_deepSort]
    exact hny
  have hperm : (xs.map fun p => (p.1, deepSort p.2)).Perm
      (ys.map fun p => (p.1, deepSort p.2)) :=
    (List.perm_ext_iff_of_nodup hndx hndy).mpr hiff
  rw [deepSortFields_eq_map, deepSortFields_eq_map]
  exact insertionSort_congr_perm _ _ hperm
    (by rw [keysOf_map_deepSort]; exact hnx)

theorem sizeOf_pos_jval (a : JVal) : 0 < sizeOf a := by
  cases a <;> simp

theorem reordEq_deepSort_bounded : ∀ (n : Nat) (a : JVal), sizeOf a ≤ n →
    ∀ b, reordEq a b = true → deepSort a = deepSort b := by
  intro n
  induction n with
  | zero =>
      intro a ha
      exact absurd (sizeOf_pos_jval a) (by omega)
  | succ n ihn =>
      intro a ha b h
      have IHa : ∀ x : JVal, sizeOf x < sizeOf a →
          ∀ y, reordEq x y = true → deepSort x = deepSort y :=
        fun x hx y hy => ihn x (by omega) y hy
      cases a with
      | jnull => cases b <;> first | rfl | exact Bool.noConfusion h
      | jbool x =>
          cases b with
          | jbool y =>
              have h' : (x == y) = true := h
              rw [eq_of_beq h']
          | jnull => exact Bool.noConfusion h
          | jnum y => exact Bool.noConfusion h
          | jstr y => exact Bool.noConfusion h
          | jarr ys => exact Bool.noConfusion h
          | jobj ys => exact Bool.noConfusion h
      | jnum x =>
          cases b with
          | jnum y =>
              have h' : (x == y) = true := h
              rw [eq_of_beq h']
          | jnull => exact Bool.noConfusion h
          | jbool y => exact Bool.noConfusion h
          | jstr y => exact Bool.noConfusion h
          | jarr ys => exact Bool.noConfusion h
          | jobj ys => exact Bool.noConfusion h
      | jstr x =>
          cases b with
          | jstr y =>
              have h' : (x == y) = true := h
              rw [eq_of_beq h']
          | jnull => exact Bool.noConfusion h
          | jbool y => exact Bool.noConfusion h
          | jnum y => exact Bool.noConfusion h
          | jarr ys => exact Bool.noConfusion h
          | jobj ys => exact Bool.noConfusion h
      | jarr xs =>
          cases b with
          | jarr ys =>
              have h' : reordList xs ys = true := h
              have hsz : sizeOf (JVal.jarr xs) = 1 + sizeOf xs := by simp
              have IHl : ∀ x ∈ xs, ∀ y, reordEq x y = true →
                  deepSort x = deepSort y := fun x hx y hy =>
                IHa x (by have := List.sizeOf_lt_of_mem hx; omega) y hy
              show JVal.jarr (deepSortList xs) = JVal.jarr (deepSortList ys)
              rw [reordList_deepSortList_aux xs ys IHl h']
          | jnull => exact Bool.noConfusion h
          | jbool y => exact Bool.noConfusion h
          | jnum y => exact Bool.noConfusion h
          | jstr y => exact Bool.noConfusion h
          | jobj ys => exact Bool.noConfusion h
      | jobj xs =>
          cases b with
          | jobj ys =>
              have h' : (keysOf xs).Nodup ∧ (keysOf ys).Nodup ∧
                  xs.length = ys.length ∧ reordFields xs ys = true :=
                of_decide_eq_true h
              obtain ⟨hnx, hny, hlen, hrf⟩ := h'
              have hsz : sizeOf (JVal.jobj xs) = 1 + sizeOf xs := by simp
              have IHf : ∀ p ∈ xs, ∀ y, reordEq p.2 y = true →
                  deepSort p.2 = deepSort y := by
                rintro ⟨k, v⟩ hp y hy
                refine IHa v ?_ y hy
                have h1 := List.sizeOf_lt_of_mem hp
                have h2 : sizeOf (k, v) = 1 + sizeOf k + sizeOf v := by simp
                omega
              show JVal.jobj (List.insertionSort keyLE (deepSortFields xs)) =
                JVal.jobj (List.insertionSort keyLE (deepSortFields ys))
              rw [reordFields_sorted_aux xs ys IHf hnx hny hlen hrf]
          | jnull => exact Bool.noConfusion h
          | jbool y => exact Bool.noConfusion h
          | jnum y => exact Bool.noConfusion h
          | jstr y => exact Bool.noConfusion h
          | jarr ys => exact Bool.noConfusion h

theorem reordEq_deepSort (a b : JVal) (h : reordEq a b = true) :
    deepSort a = deepSort b :=
  reordEq_deepSort_bounded (sizeOf a) a (le_refl _) b h

/-- C4: two variables values equal up to recursive reordering of
plain-object keys hash to the same string under any key — the replacer
re-serializes every plain object with sorted keys, so the serialized form
is reorder-invariant. -/
theorem claim_C4_hash_order_independent (key : String) (a b : JVal)
    (h : reordEq a b = true) :
    hashFullKey key (some a) = hashFullKey key (some b) := by
  have hsorted : deepSort (getFullKey key (some a)) =
      deepSort (getFullKey key (some b)) := by
    show JVal.jarr [JVal.jstr key, deepSort a] =
      JVal.jarr [JVal.jstr key, deepSort b]
    rw [reordEq_deepSort a b h]
  simp only [hashFullKey, hashKey]
  rw [hsorted]

theorem claim_C4_hash_order_independent_witness :
    reordEq (.jobj [("b", .jnum 2), ("a", .jnum 1)])
        (.jobj [("a", .jnum 1), ("b", .jnum 2)]) = true ∧
    hashFullKey "k" (some (.jobj [("b", .jnum 2), ("a", .jnum 1)])) =
      hashFullKey "k" (some (.jobj [("a", .jnum 1), ("b", .jnum 2)])) :=
  ⟨by decide, claim_C4_hash_order_independent "k" _ _ (by decide)⟩

end Quaere
